import Mathlib

/-!
XFuel listener: proof relay and event monitor.

A shallow embedding of `backend/listener/main.go` (`Listener.ProcessMockGPUProof`,
`Listener.ListenForEvents`) together with the library routines whose behaviour the
relay depends on (`big.Int.SetString`, `encoding/json` string encoding, the
go-ethereum ABI codec for the fixed `routerABI` schema).

Conventions: a Go `string` / `[]byte` is a list of byte values (`Nat`, each below
256); a Go `error` return is `Option GoError` with `none` for `nil`; a `*big.Int`
is an `Int`; a `uint64` is a `Nat` reduced modulo `2 ^ 64` at every conversion.
-/

namespace XFuel

/-- A Go string or byte slice: its bytes in order (each value is below 256). -/
abbrev Bytes := List Nat

/-- The bytes of an ASCII literal. -/
def ascii (s : String) : Bytes := s.data.map Char.toNat

/-! ## `math/big`: `(*Int).SetString(s, base)` -/

/-- `scanSign` of `math/big/intconv.go`: reads one byte; `-` sets the sign, `+` is
skipped, any other byte is unread. `none` is the read error on empty input. -/
def scanSign : Bytes → Option (Bool × Bytes)
  | [] => none
  | ch :: r =>
    if ch = 45 then some (true, r)
    else if ch = 43 then some (false, r)
    else some (false, ch :: r)

/-- `MaxBase` of `math/big`. -/
def MaxBase : Nat := 62

/-- The digit value `d1` that `nat.scan` assigns to a byte when the base is at most
36 (`maxBaseSmall`): `0-9`, then `a-z` and `A-Z` as 10..35, anything else
`MaxBase + 1`. -/
def digitVal (ch : Nat) : Nat :=
  if 48 ≤ ch ∧ ch ≤ 57 then ch - 48
  else if 97 ≤ ch ∧ ch ≤ 122 then ch - 97 + 10
  else if 65 ≤ ch ∧ ch ≤ 90 then ch - 65 + 10
  else MaxBase + 1

/-- The digit loop of `nat.scan(r, base, fracOk = false)` for a non-zero base (so
neither `_` separators nor a base prefix are recognised): consumes bytes while
their digit value is below the base, accumulating `z * base + d1` and counting the
digits; the first other byte is unread. Returns the value, the digit count and
the unread input. -/
def natScanLoop (b1 : Nat) : Bytes → Nat → Nat → Nat × Nat × Bytes
  | [], z, count => (z, count, [])
  | ch :: r, z, count =>
    if digitVal ch ≥ b1 then (z, count, ch :: r)
    else natScanLoop b1 r (z * b1 + digitVal ch) (count + 1)

/-- `nat.scan` for a non-zero base: `none` is `errNoDigits` (no digit was read). -/
def natScan (r : Bytes) (base : Nat) : Option (Nat × Bytes) :=
  match natScanLoop base r 0 0 with
  | (z, count, rest) => if count = 0 then none else some (z, rest)

/-- `(*Int).scan`: sign, then magnitude; zero carries no sign. -/
def intScan (r : Bytes) (base : Nat) : Option (Int × Bytes) :=
  match scanSign r with
  | none => none
  | some (neg, r1) =>
    match natScan r1 base with
    | none => none
    | some (abs, rest) => some (if neg then - (abs : Int) else (abs : Int), rest)

/-- `(*Int).SetString(s, base)` (via `setFromScanner`): the scan must succeed and
must have consumed the entire string. `none` is the `ok = false` result. -/
def setString (s : Bytes) (base : Nat) : Option Int :=
  match intScan s base with
  | none => none
  | some (z, rest) => if rest = [] then some z else none

/-! ### What "a base-10 integer" means, independently of the scanner -/

/-- An ASCII decimal digit. -/
def isDecDigit (c : Nat) : Prop := 48 ≤ c ∧ c ≤ 57

instance (c : Nat) : Decidable (isDecDigit c) := by unfold isDecDigit; infer_instance

/-- The number a digit string denotes, most significant digit first. -/
def decValue (ds : Bytes) : Nat := ds.foldl (fun v c => 10 * v + (c - 48)) 0

/-- The string is a non-empty run of decimal digits denoting `n`. -/
def DenotesNat (s : Bytes) (n : Nat) : Prop :=
  s ≠ [] ∧ (∀ c ∈ s, isDecDigit c) ∧ decValue s = n

/-- The string denotes the integer `z` in base 10: a non-empty run of decimal
digits, optionally preceded by one `+` or `-`. -/
def DenotesInt (s : Bytes) (z : Int) : Prop :=
  (∃ n, DenotesNat s n ∧ z = n) ∨
  (∃ t n, s = 43 :: t ∧ DenotesNat t n ∧ z = n) ∨
  (∃ t n, s = 45 :: t ∧ DenotesNat t n ∧ z = -(n : Int))

/-! ## `unicode/utf8` and `encoding/json`: how `json.Marshal` writes a string -/

/-- `utf8.RuneError`, U+FFFD. -/
def RuneError : Nat := 0xFFFD

/-- The `first` table of `unicode/utf8`: for a leading byte, `0xF0` (`as`) for
ASCII, `0xF1` (`xx`) for an invalid leader, otherwise the sequence length in
the low three bits and the index of the accept range of the second byte in the
high four. -/
def first (b : Nat) : Nat :=
  if b < 0x80 then 0xF0
  else if b < 0xC2 then 0xF1
  else if b < 0xE0 then 0x02
  else if b = 0xE0 then 0x13
  else if b < 0xED then 0x03
  else if b = 0xED then 0x23
  else if b < 0xF0 then 0x03
  else if b = 0xF0 then 0x34
  else if b < 0xF4 then 0x04
  else if b = 0xF4 then 0x44
  else 0xF1

/-- The `acceptRanges` table of `unicode/utf8` (entries past index 4 are zero). -/
def acceptRanges (i : Nat) : Nat × Nat :=
  match i with
  | 0 => (0x80, 0xBF)
  | 1 => (0xA0, 0xBF)
  | 2 => (0x80, 0x9F)
  | 3 => (0x90, 0xBF)
  | 4 => (0x80, 0x8F)
  | _ => (0, 0)

/-- `utf8.DecodeRuneInString`: the first rune of `s` and its width in bytes;
`(RuneError, 1)` for an invalid or truncated encoding, `(RuneError, 0)` for the
empty string. The bit operations `s0 & mask << k | ...` are written with `%`,
`*` and `+` (the or-ed fields do not overlap). -/
def decodeRuneInString (s : Bytes) : Nat × Nat :=
  if s.length < 1 then (RuneError, 0)
  else
    let s0 := s.getD 0 0
    let x := first s0
    if x ≥ 0xF0 then (if x % 2 = 1 then RuneError else s0, 1)
    else
      let sz := x % 8
      let accept := acceptRanges (x / 16)
      if s.length < sz then (RuneError, 1)
      else
        let s1 := s.getD 1 0
        if s1 < accept.1 ∨ accept.2 < s1 then (RuneError, 1)
        else if sz ≤ 2 then ((s0 % 32) * 64 + s1 % 64, 2)
        else
          let s2 := s.getD 2 0
          if s2 < 0x80 ∨ 0xBF < s2 then (RuneError, 1)
          else if sz ≤ 3 then ((s0 % 16) * 4096 + (s1 % 64) * 64 + s2 % 64, 3)
          else
            let s3 := s.getD 3 0
            if s3 < 0x80 ∨ 0xBF < s3 then (RuneError, 1)
            else ((s0 % 8) * 262144 + (s1 % 64) * 4096 + (s2 % 64) * 64 + s3 % 64, 4)

/-- `htmlSafeSet` of `encoding/json`, for a byte below `utf8.RuneSelf`: printable
ASCII and DEL, except the quote, the backslash and the characters `&`, `<`, `>`. -/
def htmlSafeSet (b : Nat) : Bool :=
  decide (0x20 ≤ b ∧ b ≤ 0x7F ∧ b ≠ 0x22 ∧ b ≠ 0x26 ∧ b ≠ 0x3C ∧ b ≠ 0x3E ∧ b ≠ 0x5C)

/-- The `hex` table `"0123456789abcdef"` of `encoding/json`. -/
def hexDigit (d : Nat) : Nat := if d < 10 then 48 + d else 87 + d

/-- The escape `appendString` writes for an ASCII byte outside `htmlSafeSet` (the
`switch` of Go 1.22 and later, which has the two-character forms for backspace
and form feed as well). -/
def escapeByte (b : Nat) : Bytes :=
  if b = 0x5C ∨ b = 0x22 then [0x5C, b]
  else if b = 0x08 then [0x5C, 0x62]
  else if b = 0x0C then [0x5C, 0x66]
  else if b = 0x0A then [0x5C, 0x6E]
  else if b = 0x0D then [0x5C, 0x72]
  else if b = 0x09 then [0x5C, 0x74]
  else [0x5C, 0x75, 0x30, 0x30, hexDigit (b / 16), hexDigit (b % 16)]

/-- The loop of `appendString(dst, src, escapeHTML = true)` of `encoding/json`,
from position `i` on (the argument is `src[i:]`): what is appended between the
two quotes. Safe ASCII is copied, other ASCII escaped, an invalid byte becomes
the six characters of the escape for U+FFFD, U+2028 and U+2029 are escaped, and
every other rune is copied in its own bytes. -/
def appendStringLoop : Bytes → Bytes
  | [] => []
  | b :: t =>
    if b < 0x80 then
      (if htmlSafeSet b then [b] else escapeByte b) ++ appendStringLoop t
    else
      let d := decodeRuneInString ((b :: t).take 4)
      if d.1 = RuneError ∧ d.2 = 1 then
        [0x5C, 0x75, 0x66, 0x66, 0x66, 0x64] ++ appendStringLoop t
      else if d.1 = 0x2028 ∨ d.1 = 0x2029 then
        [0x5C, 0x75, 0x32, 0x30, 0x32, hexDigit (d.1 % 16)] ++ appendStringLoop (t.drop (d.2 - 1))
      else
        (b :: t).take d.2 ++ appendStringLoop (t.drop (d.2 - 1))
termination_by s => s.length
decreasing_by
  all_goals simp_wf
  all_goals omega

/-- A Go string as `json.Marshal` writes it: quoted and escaped. -/
def jsonString (s : Bytes) : Bytes := 0x22 :: (appendStringLoop s ++ [0x22])

/-- `strconv.formatBits(u, 10)`: the decimal digits of `u`, most significant first. -/
def formatBits (u : Nat) : Bytes :=
  if u = 0 then [48] else (Nat.digits 10 u).reverse.map (fun d => d + 48)

/-- `strconv.AppendInt(dst, i, 10)` as `encoding/json` uses it for an `int64` field. -/
def appendInt (i : Int) : Bytes :=
  if i < 0 then 45 :: formatBits i.natAbs else formatBits i.natAbs

/-! ## Errors -/

/-- A Go `error` value as the listener builds or receives it. -/
inductive GoError where
  /-- An error with a fixed message: `errors.New`, `fmt.Errorf` without `%w`, or
  an error handed over by a callee. -/
  | new (msg : Bytes)
  /-- The result of `fmt.Errorf(msg + "%w", inner)`. -/
  | wrap (msg : Bytes) (inner : GoError)
  deriving DecidableEq, Repr

/-- The `Error()` text of an error value. -/
def GoError.Error : GoError → Bytes
  | .new msg => msg
  | .wrap msg inner => msg ++ inner.Error

/-! ## The proof record and its JSON form -/

/-- The `GPUProof` struct (main.go:53-60). `Timestamp` is an `int64`. -/
structure GPUProof where
  GPUId : Bytes
  TaskId : Bytes
  Reward : Bytes
  Timestamp : Int
  User : Bytes
  TargetLST : Bytes
  deriving DecidableEq, Repr

/-- `json.Marshal(proof)` for the `GPUProof` struct: a JSON object with the six
tagged fields in declaration order. For a struct of strings and an `int64` the
encoder has no failing case, so the result is always `ok`. -/
def jsonMarshal (p : GPUProof) : Except GoError Bytes :=
  .ok (ascii "\x7b\"gpuId\":" ++ jsonString p.GPUId
    ++ ascii ",\"taskId\":" ++ jsonString p.TaskId
    ++ ascii ",\"reward\":" ++ jsonString p.Reward
    ++ ascii ",\"timestamp\":" ++ appendInt p.Timestamp
    ++ ascii ",\"user\":" ++ jsonString p.User
    ++ ascii ",\"targetLST\":" ++ jsonString p.TargetLST
    ++ ascii "\x7d")

/-- The string is valid UTF-8 (what `utf8.ValidString` decides): decoded rune by
rune with `DecodeRuneInString`, the way `appendString` walks it, it never meets
an invalid or truncated encoding. -/
def validString : Bytes → Bool
  | [] => true
  | b :: t =>
    if b < 0x80 then validString t
    else
      let d := decodeRuneInString ((b :: t).take 4)
      if d.1 = RuneError ∧ d.2 = 1 then false
      else validString (t.drop (d.2 - 1))
termination_by s => s.length
decreasing_by
  all_goals simp_wf
  all_goals omega

/-- Every string field of the record is valid UTF-8. -/
def GPUProof.validUTF8 (p : GPUProof) : Prop :=
  validString p.GPUId = true ∧ validString p.TaskId = true ∧ validString p.Reward = true ∧
    validString p.User = true ∧ validString p.TargetLST = true

/-- The two records agree on every field but exactly one. -/
def differInExactlyOneField (p q : GPUProof) : Prop :=
  (if p.GPUId = q.GPUId then 0 else 1) + (if p.TaskId = q.TaskId then 0 else 1)
    + (if p.Reward = q.Reward then 0 else 1) + (if p.Timestamp = q.Timestamp then 0 else 1)
    + (if p.User = q.User then 0 else 1) + (if p.TargetLST = q.TargetLST then 0 else 1) = 1

instance (p q : GPUProof) : Decidable (differInExactlyOneField p q) := by
  unfold differInExactlyOneField; infer_instance

/-! ## go-ethereum `accounts/abi` for the `routerABI` schema -/

/-- A fixed-size byte array `[n]byte`. -/
abbrev Word (n : Nat) := { b : Bytes // b.length = n }

/-- `common.Hash`. -/
abbrev Hash := Word 32

/-- `common.Address`. -/
abbrev Address := Word 20

/-- The low `len` bytes of `n`, most significant first. -/
def bigEndian : Nat → Nat → Bytes
  | 0, _ => []
  | len + 1, n => bigEndian len (n / 256) ++ [n % 256]

/-- `math.U256Bytes(z)`: `z & (2^256 - 1)` as 32 big-endian bytes (the mask wraps
a negative or oversized value modulo `2 ^ 256`). -/
def u256Bytes (z : Int) : Bytes := bigEndian 32 (z % 2 ^ 256).toNat

/-- `new(big.Int).SetBytes(b)`: the big-endian unsigned value of `b`. -/
def setBytes (b : Bytes) : Nat := b.foldl (fun v x => v * 256 + x) 0

/-- `common.RightPadBytes(slice, l)`. -/
def rightPadBytes (slice : Bytes) (l : Nat) : Bytes :=
  if l ≤ slice.length then slice else slice ++ List.replicate (l - slice.length) 0

/-- `common.LeftPadBytes(slice, l)`. -/
def leftPadBytes (slice : Bytes) (l : Nat) : Bytes :=
  if l ≤ slice.length then slice else List.replicate (l - slice.length) 0 ++ slice

/-- `packBytesSlice(bytes, l)`: the length word, then the bytes right-padded to a
multiple of 32. -/
def packBytesSlice (bytes : Bytes) (l : Nat) : Bytes :=
  u256Bytes l ++ rightPadBytes bytes ((l + 31) / 32 * 32)

/-- The parsed `routerABI` as far as the listener uses it. -/
structure ABI where
  /-- `Methods["processGPUProof"].ID`, the four-byte selector. -/
  methodID : Word 4
  /-- Whether `packElement` refuses a negative `*big.Int` for an unsigned
  parameter (newer go-ethereum releases do; older ones wrap it). The repository
  pins no release under `src/`. -/
  strictSign : Bool
  /-- `UnpackIntoInterface(&event, "GPUProofProcessed", data)`: the non-indexed
  fields `amount` and `targetLST`, or the codec's error. -/
  unpackEvent : Bytes → Except GoError (Int × Bytes)

/-- `routerABI.Pack("processGPUProof", proofHash, userAddr, amount, targetLST)`:
the selector, then the four head words (`bytes32`, `address`, `uint256`, the
offset of the string), then the string's length word and padded bytes. -/
def ABI.Pack (abi : ABI) (proofHash : Hash) (user : Address) (amount : Int)
    (targetLST : Bytes) : Except GoError Bytes :=
  if abi.strictSign = true ∧ amount < 0 then
    .error (.new (ascii "abi: negatively-signed value cannot be packed into uint parameter"))
  else
    let inputOffset : Nat := 4 * 32
    let ret := rightPadBytes proofHash.1 32 ++ leftPadBytes user.1 32 ++ u256Bytes amount
      ++ u256Bytes inputOffset
    let variableInput := packBytesSlice targetLST targetLST.length
    .ok (abi.methodID.1 ++ (ret ++ variableInput))

/-- `output[lo:hi]` for `lo ≤ hi ≤ len(output)`. -/
def slice (output : Bytes) (lo hi : Nat) : Bytes := (output.drop lo).take (hi - lo)

/-- `lengthPrefixPointsTo(index, output)`: where a dynamic value starts and how
long it is; `none` is any of its four range errors. -/
def lengthPrefixPointsTo (index : Nat) (output : Bytes) : Option (Nat × Nat) :=
  let bigOffsetEnd := setBytes (slice output index (index + 32)) + 32
  if bigOffsetEnd > output.length then none
  else if bigOffsetEnd ≥ 2 ^ 63 then none
  else
    let lengthBig := setBytes (slice output (bigOffsetEnd - 32) bigOffsetEnd)
    let totalSize := bigOffsetEnd + lengthBig
    if totalSize ≥ 2 ^ 63 then none
    else if totalSize > output.length then none
    else some (bigOffsetEnd, lengthBig)

/-- `toGoType(index, uint256, output)`: `ReadInteger` of the word at `index`. -/
def readUint256 (index : Nat) (output : Bytes) : Option Nat :=
  if index + 32 > output.length then none
  else some (setBytes (slice output index (index + 32)))

/-- `toGoType(index, string, output)`. -/
def readString (index : Nat) (output : Bytes) : Option Bytes :=
  if index + 32 > output.length then none
  else
    match lengthPrefixPointsTo index output with
    | none => none
    | some (begin, length) => some (slice output begin (begin + length))

/-- The `amount` and `targetLST` arguments that
`Methods["processGPUProof"].Inputs.Unpack(payload[4:])` returns: the third and
fourth arguments are read at byte offsets 64 and 96 of the argument block. -/
def unpackCall (payload : Bytes) : Option (Int × Bytes) :=
  let data := payload.drop 4
  if data.length = 0 then none
  else
    match readUint256 64 data, readString 96 data with
    | some amount, some label => some ((amount : Int), label)
    | _, _ => none

/-! ## The listener and its collaborators -/

/-- `types.Receipt`, the fields the listener reads. -/
structure Receipt where
  Status : Nat
  BlockNumber : Nat
  deriving DecidableEq, Repr

/-- The arguments of `types.NewTransaction(nonce, to, amount, gasLimit, gasPrice, data)`. -/
structure Transaction where
  nonce : Nat
  to_ : Address
  amount : Int
  gasLimit : Nat
  gasPrice : Int
  data : Bytes
  deriving DecidableEq

/-- A signed transaction: the envelope and the signature `types.SignTx` adds. -/
structure SignedTx where
  tx : Transaction
  signature : Bytes
  deriving DecidableEq

/-- `types.Log`, the fields the listener reads. -/
structure Log where
  Topics : List Hash
  Data : Bytes
  BlockNumber : Nat
  deriving DecidableEq

/-- The remote node behind `ethclient.Client`: its answer to each request the
listener makes. -/
structure Client where
  /-- `PendingNonceAt(ctx, account)`: a `uint64` or an error. -/
  PendingNonceAt : Address → Except GoError Nat
  /-- `SuggestGasPrice(ctx)`. -/
  SuggestGasPrice : Except GoError Int
  /-- `SendTransaction(ctx, tx)`: `none` is `nil`. -/
  SendTransaction : SignedTx → Option GoError
  /-- `TransactionReceipt(ctx, hash)` at the `k`-th poll (from 0) for the given
  transaction: the receipt, or `none` while the call returns an error (not
  found, transport). -/
  TransactionReceipt : SignedTx → Nat → Option Receipt
  /-- `SubscribeFilterLogs(ctx, query, logs)`: `none` is a subscription. -/
  SubscribeFilterLogs : Option GoError

/-- The primitives the listener takes from `crypto`, `common`, `bind` and `types`. -/
structure Primitives where
  /-- `crypto.Keccak256Hash`. -/
  Keccak256Hash : Bytes → Hash
  /-- `common.HexToAddress`. -/
  HexToAddress : Bytes → Address
  /-- `bind.NewKeyedTransactorWithChainID(key, chainID)`: the sender account
  `auth.From`, or an error. -/
  NewKeyedTransactorWithChainID : Nat → Int → Except GoError Address
  /-- `types.SignTx(tx, types.NewEIP155Signer(chainID), key)`: the signature. -/
  SignTx : Transaction → Int → Nat → Except GoError Bytes

/-- The `Listener` struct (main.go:62-68). -/
structure Listener where
  client : Client
  routerAddr : Address
  privateKey : Nat
  routerABI : ABI
  chainID : Int

/-- A request the listener sent to the node. -/
inductive GatewayCall where
  | pendingNonceAt (account : Address)
  | suggestGasPrice
  | sendTransaction (tx : SignedTx)
  | transactionReceipt
  deriving DecidableEq

/-- Whether the request is a broadcast. -/
def GatewayCall.isSend : GatewayCall → Bool
  | .sendTransaction _ => true
  | _ => false

/-- How far a call of `ProcessMockGPUProof` got: it returned (`none` is `nil`), or
it is still inside `bind.WaitMined` after the polls it was allowed. -/
inductive Outcome where
  | returned (err : Option GoError)
  | waiting
  deriving DecidableEq

/-- A run of `ProcessMockGPUProof`: the requests sent to the node, in order, and
the outcome. -/
structure Run where
  calls : List GatewayCall
  outcome : Outcome

/-- The Go conversion `int64(u)` of a `uint64`: the same 64 bits read as a signed
value. -/
def toInt64 (u : Nat) : Int :=
  if u % 2 ^ 64 < 2 ^ 63 then ((u % 2 ^ 64 : Nat) : Int) else ((u % 2 ^ 64 : Nat) : Int) - 2 ^ 64

/-- `big.NewInt(x)`. -/
def bigNewInt (x : Int) : Int := x

/-- `(*big.Int).Uint64()`: the low 64 bits of the magnitude (the sign is dropped). -/
def bigUint64 (z : Int) : Nat := z.natAbs % 2 ^ 64

/-- The loop of `bind.WaitMined(ctx, client, tx)`: poll for the receipt and return
it as soon as a poll succeeds; otherwise return `ctx.Err()` if the context is
done at that round, else wait for the next tick and poll again. `ctxDone k` is
the state of the context after the `k`-th failed poll. Returns the number of
polls made and the result, `none` when the allowed polls are used up. -/
def WaitMined (ctxDone : Nat → Option GoError) (poll : Nat → Option Receipt) :
    Nat → Nat → Nat × Option (Except GoError Receipt)
  | 0, k => (k, none)
  | fuel + 1, k =>
    match poll k with
    | some receipt => (k + 1, some (.ok receipt))
    | none =>
      match ctxDone k with
      | some err => (k + 1, some (.error err))
      | none => WaitMined ctxDone poll fuel (k + 1)

/-- `context.Background()`: never done. -/
def backgroundDone : Nat → Option GoError := fun _ => none

/-- `Listener.ProcessMockGPUProof` (main.go:101-186). `fuel` bounds the number of
receipt polls that are followed; every other step is a single call. -/
def ProcessMockGPUProof (P : Primitives) (l : Listener) (proof : GPUProof) (fuel : Nat) : Run :=
  match jsonMarshal proof with
  | .error err => ⟨[], .returned (some (.wrap (ascii "failed to marshal proof: ") err))⟩
  | .ok proofJSON =>
  let proofHash := P.Keccak256Hash proofJSON
  match setString proof.Reward 10 with
  | none => ⟨[], .returned (some (.new (ascii "invalid reward amount: " ++ proof.Reward)))⟩
  | some amount =>
  let userAddr := P.HexToAddress proof.User
  match P.NewKeyedTransactorWithChainID l.privateKey l.chainID with
  | .error err => ⟨[], .returned (some (.wrap (ascii "failed to create transactor: ") err))⟩
  | .ok sender =>
  match l.client.PendingNonceAt sender with
  | .error err =>
    ⟨[.pendingNonceAt sender], .returned (some (.wrap (ascii "failed to get nonce: ") err))⟩
  | .ok nonce =>
  let authNonce := bigNewInt (toInt64 nonce)
  match l.client.SuggestGasPrice with
  | .error err =>
    ⟨[.pendingNonceAt sender, .suggestGasPrice],
      .returned (some (.wrap (ascii "failed to get gas price: ") err))⟩
  | .ok gasPrice =>
  let gasLimit := 300000
  match l.routerABI.Pack proofHash userAddr amount proof.TargetLST with
  | .error err =>
    ⟨[.pendingNonceAt sender, .suggestGasPrice],
      .returned (some (.wrap (ascii "failed to pack function: ") err))⟩
  | .ok data =>
  let tx : Transaction := ⟨bigUint64 authNonce, l.routerAddr, bigNewInt 0, gasLimit, gasPrice, data⟩
  match P.SignTx tx l.chainID l.privateKey with
  | .error err =>
    ⟨[.pendingNonceAt sender, .suggestGasPrice],
      .returned (some (.wrap (ascii "failed to sign transaction: ") err))⟩
  | .ok signature =>
  let signedTx : SignedTx := ⟨tx, signature⟩
  match l.client.SendTransaction signedTx with
  | some err =>
    ⟨[.pendingNonceAt sender, .suggestGasPrice, .sendTransaction signedTx],
      .returned (some (.wrap (ascii "failed to send transaction: ") err))⟩
  | none =>
  match WaitMined backgroundDone (l.client.TransactionReceipt signedTx) fuel 0 with
  | (polls, none) =>
    ⟨[.pendingNonceAt sender, .suggestGasPrice, .sendTransaction signedTx]
      ++ List.replicate polls .transactionReceipt, .waiting⟩
  | (polls, some (.error err)) =>
    ⟨[.pendingNonceAt sender, .suggestGasPrice, .sendTransaction signedTx]
      ++ List.replicate polls .transactionReceipt,
      .returned (some (.wrap (ascii "failed to wait for transaction: ") err))⟩
  | (polls, some (.ok receipt)) =>
    if receipt.Status = 0 then
      ⟨[.pendingNonceAt sender, .suggestGasPrice, .sendTransaction signedTx]
        ++ List.replicate polls .transactionReceipt,
        .returned (some (.new (ascii "transaction failed")))⟩
    else
      ⟨[.pendingNonceAt sender, .suggestGasPrice, .sendTransaction signedTx]
        ++ List.replicate polls .transactionReceipt, .returned none⟩

/-! ## The event monitor -/

/-- `common.BytesToAddress(b)`: the last 20 bytes of `b`, left-padded with zeros. -/
def bytesToAddress (b : Bytes) : Address :=
  ⟨List.replicate (20 - (b.drop (b.length - 20)).length) 0 ++ b.drop (b.length - 20), by
    simp only [List.length_append, List.length_replicate, List.length_drop]; omega⟩

/-- `common.BytesToHash(b)`: the last 32 bytes of `b`, left-padded with zeros. -/
def bytesToHash (b : Bytes) : Hash :=
  ⟨List.replicate (32 - (b.drop (b.length - 32)).length) 0 ++ b.drop (b.length - 32), by
    simp only [List.length_append, List.length_replicate, List.length_drop]; omega⟩

/-- What the monitor reports for a decoded `GPUProofProcessed` log (main.go:234-240). -/
structure DecodedEvent where
  listener : Address
  proofHash : Hash
  user : Address
  amount : Int
  targetLST : Bytes
  block : Nat
  deriving DecidableEq

/-- The errors `ctx.Err()` can be once `ctx.Done()` is closed. -/
inductive ContextErr where
  | Canceled
  | DeadlineExceeded
  deriving DecidableEq

/-- The error values `context.Canceled` and `context.DeadlineExceeded`. -/
def ContextErr.toError : ContextErr → GoError
  | .Canceled => .new (ascii "context canceled")
  | .DeadlineExceeded => .new (ascii "context deadline exceeded")

/-- What one `select` of the loop receives. -/
inductive Select where
  /-- `err := <-sub.Err()`. -/
  | subErr (err : GoError)
  /-- `logEntry := <-logs`. -/
  | log (logEntry : Log)
  /-- `<-ctx.Done()`; `err` is what `ctx.Err()` then returns. -/
  | done (err : ContextErr)

/-- The monitor's control state. `panicked` is a run-time panic (an index out of
range); `terminated` carries the returned error, `none` being `nil`. -/
inductive MonitorState where
  | listening
  | terminated (result : Option GoError)
  | panicked
  deriving DecidableEq

/-- The monitor: control state, events reported so far, and how many times
`sub.Unsubscribe()` has run. -/
structure Monitor where
  state : MonitorState
  emitted : List DecodedEvent
  unsubscribes : Nat

/-- The result of handling one log record (main.go:207-240). -/
inductive LogResult where
  | discarded
  | emitted (event : DecodedEvent)
  | panic
  deriving DecidableEq

/-- The body of `case logEntry := <-logs` (main.go:207-240). Indexing `Topics[i]`
past the end of the slice is a panic. -/
def handleLog (abi : ABI) (logEntry : Log) : LogResult :=
  if logEntry.Topics.length < 4 then .discarded
  else
    match logEntry.Topics.get? 1, logEntry.Topics.get? 2, logEntry.Topics.get? 3 with
    | some t1, some t2, some t3 =>
      let listener := bytesToAddress t1.1
      let proofHash := bytesToHash t2.1
      let user := bytesToAddress t3.1
      match abi.unpackEvent logEntry.Data with
      | .error _ => .discarded
      | .ok (amount, targetLST) =>
        .emitted ⟨listener, proofHash, user, amount, targetLST, logEntry.BlockNumber⟩
    | _, _, _ => .panic

/-- The `for { select { ... } }` loop (main.go:203-244) over what the successive
selects receive. Leaving the function runs the deferred `sub.Unsubscribe()`.
When the list is used up the monitor is blocked in `select`, still listening. -/
def listenLoop (abi : ABI) : List Select → Monitor → Monitor
  | [], m => m
  | .subErr err :: _, m =>
    { m with state := .terminated (some (.wrap (ascii "subscription error: ") err)),
             unsubscribes := m.unsubscribes + 1 }
  | .done err :: _, m =>
    { m with state := .terminated (some err.toError), unsubscribes := m.unsubscribes + 1 }
  | .log logEntry :: rest, m =>
    match handleLog abi logEntry with
    | .discarded => listenLoop abi rest m
    | .emitted event => listenLoop abi rest { m with emitted := m.emitted ++ [event] }
    | .panic => { m with state := .panicked, unsubscribes := m.unsubscribes + 1 }

/-- `Listener.ListenForEvents` (main.go:189-245): subscribe, then loop. A failed
subscription returns before the `defer` is registered. -/
def ListenForEvents (l : Listener) (events : List Select) : Monitor :=
  match l.client.SubscribeFilterLogs with
  | some err =>
    ⟨.terminated (some (.wrap (ascii "failed to subscribe to logs: ") err)), [], 0⟩
  | none => listenLoop l.routerABI events ⟨.listening, [], 0⟩

/-- Bytes 12 to 31 of a 32-byte topic, `topic[12:32]`: the 20 bytes in which an
indexed `address` field sits. -/
def topicAddress (t : Hash) : Address := ⟨t.1.drop 12, by rw [List.length_drop, t.2]⟩

/-- The decoding of a log record that has at least four topics and a decodable
payload, stated on the topic layout and not through the listener's conversion
routines: the listener is `Topics[1][12:32]`, the proof hash is `Topics[2]`
unchanged, the beneficiary is `Topics[3][12:32]`, the amount and the label are
what the decode capability returns for the payload, and the block is the
record's block number. `none` for any other record. -/
def decodeLog (abi : ABI) (logEntry : Log) : Option DecodedEvent :=
  match logEntry.Topics with
  | _ :: t1 :: t2 :: t3 :: _ =>
    match abi.unpackEvent logEntry.Data with
    | .ok (amount, targetLST) =>
      some ⟨topicAddress t1, t2, topicAddress t3, amount, targetLST, logEntry.BlockNumber⟩
    | .error _ => none
  | _ => none

/-- Every step of `ProcessMockGPUProof` before the broadcast succeeds
(main.go:103-159), and `signedTx` is the transaction handed to `SendTransaction`. -/
def ReachesBroadcast (P : Primitives) (l : Listener) (proof : GPUProof) (signedTx : SignedTx) :
    Prop :=
  ∃ proofJSON amount sender nonce gasPrice data signature,
    jsonMarshal proof = .ok proofJSON ∧
    setString proof.Reward 10 = some amount ∧
    P.NewKeyedTransactorWithChainID l.privateKey l.chainID = .ok sender ∧
    l.client.PendingNonceAt sender = .ok nonce ∧
    l.client.SuggestGasPrice = .ok gasPrice ∧
    l.routerABI.Pack (P.Keccak256Hash proofJSON) (P.HexToAddress proof.User) amount
      proof.TargetLST = .ok data ∧
    P.SignTx ⟨bigUint64 (bigNewInt (toInt64 nonce)), l.routerAddr, bigNewInt 0, 300000, gasPrice,
      data⟩ l.chainID l.privateKey = .ok signature ∧
    signedTx = ⟨⟨bigUint64 (bigNewInt (toInt64 nonce)), l.routerAddr, bigNewInt 0, 300000,
      gasPrice, data⟩, signature⟩

/-- All steps up to and including the broadcast succeed (main.go:103-165). -/
def BroadcastSucceeds (P : Primitives) (l : Listener) (proof : GPUProof) (signedTx : SignedTx) :
    Prop :=
  ReachesBroadcast P l proof signedTx ∧ l.client.SendTransaction signedTx = none

/-- The number of broadcasts among the requests of a run. -/
def Run.broadcasts (r : Run) : Nat := (r.calls.filter GatewayCall.isSend).length

/-! ## A simulated node and sample inputs -/

/-- The non-indexed fields of a `GPUProofProcessed` payload by the ABI's standard
encoding: `amount` in the first word, `targetLST` behind the offset in the
second. -/
def unpackEventData (data : Bytes) : Except GoError (Int × Bytes) :=
  if data.length = 0 then .error (.new (ascii "abi: attempting to unmarshal an empty string"))
  else
    match readUint256 0 data, readString 32 data with
    | some amount, some label => .ok ((amount : Int), label)
    | _, _ => .error (.new (ascii "abi: cannot marshal in to go type"))

/-- A parsed schema with a sample selector. -/
def simABI (strict : Bool) : ABI :=
  { methodID := ⟨[0x12, 0x34, 0x56, 0x78], rfl⟩, strictSign := strict,
    unpackEvent := unpackEventData }

/-- Stand-ins for the cryptographic primitives (the stand-in "hash" keeps the
last 32 bytes; signing always succeeds with an empty signature). -/
def simPrimitives : Primitives :=
  { Keccak256Hash := bytesToHash
    HexToAddress := bytesToAddress
    NewKeyedTransactorWithChainID := fun _ _ => .ok ⟨List.replicate 20 1, rfl⟩
    SignTx := fun _ _ _ => .ok [] }

/-- A simulated node: it answers the nonce query with `nonce`, suggests a gas
price of 1, accepts every broadcast, and answers the `k`-th receipt poll with
`receipts k`. -/
def simClient (nonce : Nat) (receipts : Nat → Option Receipt) : Client :=
  { PendingNonceAt := fun _ => .ok nonce
    SuggestGasPrice := .ok 1
    SendTransaction := fun _ => none
    TransactionReceipt := fun _ => receipts
    SubscribeFilterLogs := none }

/-- A listener on the simulated node. -/
def simListener (strict : Bool) (nonce : Nat) (receipts : Nat → Option Receipt) : Listener :=
  { client := simClient nonce receipts
    routerAddr := ⟨List.replicate 20 2, rfl⟩
    privateKey := 1
    routerABI := simABI strict
    chainID := 365 }

/-- The mock proof of `main` (main.go:291-298) with the given reward string. -/
def mockProof (reward : Bytes) : GPUProof :=
  { GPUId := ascii "gpu-12345"
    TaskId := ascii "task-67890"
    Reward := reward
    Timestamp := 1700000000
    User := ascii "0x0101010101010101010101010101010101010101"
    TargetLST := ascii "stkXPRT" }

/-- A 32-byte topic filled with the byte `b`. -/
def topicOf (b : Nat) : Hash := ⟨List.replicate 32 b, by simp⟩

/-- A well-formed `GPUProofProcessed` log: four topics and a payload holding the
amount 5 and the label "stkXPRT". -/
def goodLog : Log :=
  { Topics := [topicOf 0xAA, topicOf 1, topicOf 2, topicOf 3]
    Data := u256Bytes 5 ++ u256Bytes 64 ++ packBytesSlice (ascii "stkXPRT") 7
    BlockNumber := 42 }

/-- A well-formed `GPUProofProcessed` log whose topics have 32 different bytes
each, so that every byte position of the decoded fields can be told apart. -/
def addressedLog : Log :=
  { Topics :=
      [topicOf 0xAA,
        ⟨[0xE0, 0xE1, 0xE2, 0xE3, 0xE4, 0xE5, 0xE6, 0xE7, 0xE8, 0xE9, 0xEA, 0xEB,
          0x01, 0x02, 0x03, 0x04, 0x05, 0x06, 0x07, 0x08, 0x09, 0x0A,
          0x0B, 0x0C, 0x0D, 0x0E, 0x0F, 0x10, 0x11, 0x12, 0x13, 0x14], rfl⟩,
        ⟨[0x20, 0x21, 0x22, 0x23, 0x24, 0x25, 0x26, 0x27, 0x28, 0x29, 0x2A, 0x2B,
          0x2C, 0x2D, 0x2E, 0x2F, 0x30, 0x31, 0x32, 0x33, 0x34, 0x35,
          0x36, 0x37, 0x38, 0x39, 0x3A, 0x3B, 0x3C, 0x3D, 0x3E, 0x3F], rfl⟩,
        ⟨[0, 0, 0, 0, 0, 0, 0, 0, 0, 0, 0, 0,
          0x41, 0x42, 0x43, 0x44, 0x45, 0x46, 0x47, 0x48, 0x49, 0x4A,
          0x4B, 0x4C, 0x4D, 0x4E, 0x4F, 0x50, 0x51, 0x52, 0x53, 0x54], rfl⟩]
    Data := u256Bytes 5 ++ u256Bytes 64 ++ packBytesSlice (ascii "stkXPRT") 7
    BlockNumber := 42 }

/-- A log with four topics whose payload is a single byte. -/
def malformedLog : Log :=
  { Topics := [topicOf 0xAA, topicOf 1, topicOf 2, topicOf 3], Data := [0xFF], BlockNumber := 41 }

/-- A log with three topics. -/
def shortLog : Log :=
  { Topics := [topicOf 0xAA, topicOf 1, topicOf 2], Data := goodLog.Data, BlockNumber := 40 }

/-! ## Reading an escaped string back -/

/-- The inverse of the `hex` table on its image. -/
def hexVal (c : Nat) : Nat := if c < 58 then c - 48 else c - 87

/-- The byte that a two-character escape `\e` stands for. -/
def unescapeShort (e : Nat) : Nat :=
  if e = 0x62 then 0x08
  else if e = 0x66 then 0x0C
  else if e = 0x6E then 0x0A
  else if e = 0x72 then 0x0D
  else if e = 0x74 then 0x09
  else e

/-- Reads an escaped string body up to its closing quote: the bytes it stands
for, and the input after the quote. It undoes `appendStringLoop` on valid
UTF-8 (used to show that the encoding can be read back unambiguously). -/
def readStringBody : Bytes → Option (Bytes × Bytes)
  | [] => none
  | b :: t =>
    if b = 0x22 then some ([], t)
    else if b = 0x5C then
      if t.length < 1 then none
      else if t.getD 0 0 = 0x75 then
        if t.length < 5 then none
        else
          (readStringBody (t.drop 5)).map (fun sr =>
            ((if t.getD 1 0 = 0x30 then [hexVal (t.getD 3 0) * 16 + hexVal (t.getD 4 0)]
              else [0xE2, 0x80, 0xA0 + hexVal (t.getD 4 0)]) ++ sr.1, sr.2))
      else (readStringBody (t.drop 1)).map (fun sr => (unescapeShort (t.getD 0 0) :: sr.1, sr.2))
    else (readStringBody t).map (fun sr => (b :: sr.1, sr.2))
termination_by s => s.length
decreasing_by
  all_goals simp_wf
  all_goals omega

/-! ## Theorems -/

/-! ## `SetString` accepts exactly the signed decimal integers -/

theorem digitVal_lt_ten_iff (ch : Nat) : digitVal ch < 10 ↔ isDecDigit ch := by
  unfold digitVal isDecDigit MaxBase
  split_ifs <;> omega

theorem digitVal_of_digit {ch : Nat} (h : isDecDigit ch) : digitVal ch = ch - 48 := by
  unfold isDecDigit at h
  unfold digitVal
  rw [if_pos h]

theorem natScanLoop_digits (r : Bytes) (h : ∀ ch ∈ r, isDecDigit ch) (z count : Nat) :
    natScanLoop 10 r z count
      = (r.foldl (fun v c => 10 * v + (c - 48)) z, count + r.length, []) := by
  induction r generalizing z count with
  | nil => simp [natScanLoop]
  | cons ch r ih =>
    have hd : isDecDigit ch := h ch (List.mem_cons_self _ _)
    have hlt : ¬ digitVal ch ≥ 10 := by
      have := (digitVal_lt_ten_iff ch).2 hd
      omega
    rw [natScanLoop, if_neg hlt, ih (fun c hc => h c (List.mem_cons_of_mem _ hc))]
    simp only [List.foldl_cons, List.length_cons, digitVal_of_digit hd, Prod.mk.injEq, and_true]
    constructor
    · rw [Nat.mul_comm]
    · omega

theorem natScanLoop_all_consumed (r : Bytes) (z count v c : Nat)
    (h : natScanLoop 10 r z count = (v, c, [])) : ∀ ch ∈ r, isDecDigit ch := by
  induction r generalizing z count with
  | nil => simp
  | cons ch r ih =>
    rw [natScanLoop] at h
    by_cases hge : digitVal ch ≥ 10
    · rw [if_pos hge] at h
      simp at h
    · rw [if_neg hge] at h
      intro c' hc'
      rcases List.mem_cons.1 hc' with rfl | hmem
      · exact (digitVal_lt_ten_iff _).1 (by omega)
      · exact ih _ _ h c' hmem

theorem natScan_eq_some_iff (r : Bytes) (n : Nat) :
    natScan r 10 = some (n, []) ↔ DenotesNat r n := by
  unfold natScan DenotesNat decValue
  constructor
  · intro h
    generalize hl : natScanLoop 10 r 0 0 = res at h
    obtain ⟨v, c, rest⟩ := res
    simp only at h
    by_cases hc : c = 0
    · simp [hc] at h
    · rw [if_neg hc] at h
      simp only [Option.some.injEq, Prod.mk.injEq] at h
      obtain ⟨rfl, rfl⟩ := h
      have hall := natScanLoop_all_consumed r 0 0 v c hl
      rw [natScanLoop_digits r hall] at hl
      simp only [Prod.mk.injEq, and_true] at hl
      refine ⟨?_, hall, hl.1⟩
      rintro rfl
      simp at hl
      omega
  · rintro ⟨hne, hall, hv⟩
    rw [natScanLoop_digits r hall]
    have : r.length ≠ 0 := by
      cases r with
      | nil => exact absurd rfl hne
      | cons _ _ => simp
    simp [this, hv]

/-- `SetString(s, 10)` returns `z` exactly when `s` is a run of decimal digits after
an optional sign and `z` is the integer it denotes. -/
theorem setString_eq_some_iff (s : Bytes) (z : Int) :
    setString s 10 = some z ↔ DenotesInt s z := by
  unfold setString intScan DenotesInt
  cases s with
  | nil =>
    simp [scanSign, DenotesNat]
  | cons ch r =>
    by_cases hm : ch = 45
    · subst hm
      simp only [scanSign, if_true]
      have hnd : ∀ n, ¬ DenotesNat (45 :: r) n := fun n h => by
        have := h.2.1 45 (List.mem_cons_self _ _)
        unfold isDecDigit at this
        omega
      constructor
      · intro h
        cases hs : natScan r 10 with
        | none => rw [hs] at h; simp at h
        | some res =>
          obtain ⟨n, rest⟩ := res
          rw [hs] at h
          simp only at h
          by_cases hr : rest = []
          · subst hr
            simp only [if_true, Option.some.injEq] at h
            right; right
            exact ⟨r, n, rfl, (natScan_eq_some_iff r n).1 hs, h.symm⟩
          · rw [if_neg hr] at h
            simp at h
      · rintro (⟨n, h, _⟩ | ⟨t, n, h, _⟩ | ⟨t, n, h, hd, rfl⟩)
        · exact absurd h (hnd n)
        · simp at h
        · simp only [List.cons.injEq, true_and] at h
          subst h
          rw [(natScan_eq_some_iff r n).2 hd]
          simp
    · by_cases hp : ch = 43
      · subst hp
        have e : scanSign (43 :: r) = some (false, r) := by simp [scanSign]
        rw [e]
        simp only
        have hnd : ∀ n, ¬ DenotesNat (43 :: r) n := fun n h => by
          have := h.2.1 43 (List.mem_cons_self _ _)
          unfold isDecDigit at this
          omega
        constructor
        · intro h
          cases hs : natScan r 10 with
          | none => rw [hs] at h; simp at h
          | some res =>
            obtain ⟨n, rest⟩ := res
            rw [hs] at h
            simp only at h
            by_cases hr : rest = []
            · subst hr
              simp only [if_true, Option.some.injEq] at h
              right; left
              exact ⟨r, n, rfl, (natScan_eq_some_iff r n).1 hs, by simpa using h.symm⟩
            · rw [if_neg hr] at h
              simp at h
        · rintro (⟨n, h, _⟩ | ⟨t, n, h, hd, rfl⟩ | ⟨t, n, h, _⟩)
          · exact absurd h (hnd n)
          · simp only [List.cons.injEq, true_and] at h
            subst h
            rw [(natScan_eq_some_iff r n).2 hd]
            simp
          · simp at h
      · simp only [scanSign, if_neg hm, if_neg hp]
        constructor
        · intro h
          cases hs : natScan (ch :: r) 10 with
          | none => rw [hs] at h; simp at h
          | some res =>
            obtain ⟨n, rest⟩ := res
            rw [hs] at h
            simp only at h
            by_cases hr : rest = []
            · subst hr
              simp only [if_true, Option.some.injEq] at h
              left
              exact ⟨n, (natScan_eq_some_iff _ n).1 hs, by simpa using h.symm⟩
            · rw [if_neg hr] at h
              simp at h
        · rintro (⟨n, hd, rfl⟩ | ⟨t, n, h, _⟩ | ⟨t, n, h, _⟩)
          · rw [(natScan_eq_some_iff _ n).2 hd]
            simp
          · simp only [List.cons.injEq] at h
            exact absurd h.1 hp
          · simp only [List.cons.injEq] at h
            exact absurd h.1 hm

/-! ## The relay: which steps run, and what is returned -/

theorem process_invalid_amount (P : Primitives) (l : Listener) (proof : GPUProof) (fuel : Nat)
    (h : setString proof.Reward 10 = none) :
    ProcessMockGPUProof P l proof fuel
      = ⟨[], .returned (some (.new (ascii "invalid reward amount: " ++ proof.Reward)))⟩ := by
  simp only [ProcessMockGPUProof, jsonMarshal, h]

theorem process_after_broadcast (P : Primitives) (l : Listener) (proof : GPUProof)
    (signedTx : SignedTx) (h : BroadcastSucceeds P l proof signedTx) (fuel : Nat) :
    ∃ sender,
    ProcessMockGPUProof P l proof fuel =
      match WaitMined backgroundDone (l.client.TransactionReceipt signedTx) fuel 0 with
      | (polls, none) =>
        ⟨[.pendingNonceAt sender, .suggestGasPrice, .sendTransaction signedTx]
          ++ List.replicate polls .transactionReceipt, .waiting⟩
      | (polls, some (.error err)) =>
        ⟨[.pendingNonceAt sender, .suggestGasPrice, .sendTransaction signedTx]
          ++ List.replicate polls .transactionReceipt,
          .returned (some (.wrap (ascii "failed to wait for transaction: ") err))⟩
      | (polls, some (.ok receipt)) =>
        if receipt.Status = 0 then
          ⟨[.pendingNonceAt sender, .suggestGasPrice, .sendTransaction signedTx]
            ++ List.replicate polls .transactionReceipt,
            .returned (some (.new (ascii "transaction failed")))⟩
        else
          ⟨[.pendingNonceAt sender, .suggestGasPrice, .sendTransaction signedTx]
            ++ List.replicate polls .transactionReceipt, .returned none⟩ := by
  obtain ⟨⟨proofJSON, amount, sender, nonce, gasPrice, data, signature, hj, ha, ht, hn, hg, hp, hs,
    rfl⟩, hsend⟩ := h
  refine ⟨sender, ?_⟩
  simp only [jsonMarshal, Except.ok.injEq] at hj
  subst hj
  simp only [ProcessMockGPUProof, jsonMarshal, ha, ht, hn, hg, hp, hs, hsend]

theorem waitMined_never (poll : Nat → Option Receipt) (h : ∀ j, poll j = none) (fuel k : Nat) :
    WaitMined backgroundDone poll fuel k = (k + fuel, none) := by
  induction fuel generalizing k with
  | zero => simp [WaitMined]
  | succ fuel ih =>
    simp only [WaitMined, h k, backgroundDone]
    rw [ih (k + 1)]
    simp only [Prod.mk.injEq, and_true]
    omega

theorem waitMined_found (poll : Nat → Option Receipt) (receipt : Receipt) (d : Nat) :
    ∀ k fuel, (∀ j, k ≤ j → j < k + d → poll j = none) → poll (k + d) = some receipt →
      d < fuel → WaitMined backgroundDone poll fuel k = (k + d + 1, some (.ok receipt)) := by
  induction d with
  | zero =>
    intro k fuel _ hk hf
    obtain ⟨fuel, rfl⟩ : ∃ f, fuel = f + 1 := ⟨fuel - 1, by omega⟩
    simp only [Nat.add_zero] at hk
    simp only [WaitMined, hk, Nat.add_zero]
  | succ d ih =>
    intro k fuel hnone hk hf
    obtain ⟨fuel, rfl⟩ : ∃ f, fuel = f + 1 := ⟨fuel - 1, by omega⟩
    have h0 : poll k = none := hnone k (Nat.le_refl _) (by omega)
    simp only [WaitMined, h0, backgroundDone]
    have := ih (k + 1) fuel (fun j hj1 hj2 => hnone j (by omega) (by omega))
      (by rw [← hk]; congr 1; omega) (by omega)
    rw [this]
    simp only [Prod.mk.injEq, and_true]
    omega

theorem broadcasts_of_calls (a : Address) (stx : SignedTx) (polls : Nat) (o : Outcome) :
    Run.broadcasts ⟨[.pendingNonceAt a, .suggestGasPrice, .sendTransaction stx]
      ++ List.replicate polls .transactionReceipt, o⟩ = 1 := by
  simp [Run.broadcasts, List.filter_cons, GatewayCall.isSend, List.filter_replicate]

theorem process_send_rejected (P : Primitives) (l : Listener) (proof : GPUProof)
    (signedTx : SignedTx) (h : ReachesBroadcast P l proof signedTx) (err : GoError)
    (hsend : l.client.SendTransaction signedTx = some err) (fuel : Nat) :
    (ProcessMockGPUProof P l proof fuel).outcome
      = .returned (some (.wrap (ascii "failed to send transaction: ") err)) := by
  obtain ⟨proofJSON, amount, sender, nonce, gasPrice, data, signature, hj, ha, ht, hn, hg, hp, hs,
    rfl⟩ := h
  simp only [jsonMarshal, Except.ok.injEq] at hj
  subst hj
  simp only [ProcessMockGPUProof, jsonMarshal, ha, ht, hn, hg, hp, hs, hsend]

theorem pack_ok_of_nonneg (abi : ABI) (proofHash : Hash) (user : Address) (amount : Int)
    (targetLST : Bytes) (h : 0 ≤ amount) :
    abi.Pack proofHash user amount targetLST
      = .ok (abi.methodID.1 ++ ((rightPadBytes proofHash.1 32 ++ leftPadBytes user.1 32
          ++ u256Bytes amount ++ u256Bytes ((4 * 32 : Nat) : Int))
          ++ packBytesSlice targetLST targetLST.length)) := by
  unfold ABI.Pack
  rw [if_neg (by omega)]

theorem sim_broadcast_succeeds (strict : Bool) (nonce : Nat) (receipts : Nat → Option Receipt) :
    ∃ data, BroadcastSucceeds simPrimitives (simListener strict nonce receipts)
      (mockProof (ascii "1000000000000000000"))
      ⟨⟨bigUint64 (bigNewInt (toInt64 nonce)), ⟨List.replicate 20 2, rfl⟩, 0, 300000, 1, data⟩, []⟩ := by
  have ha : setString (mockProof (ascii "1000000000000000000")).Reward 10
      = some 1000000000000000000 := by decide
  refine ⟨_, ⟨_, _, _, nonce, 1, _, [], rfl, ha, rfl, rfl, rfl,
    pack_ok_of_nonneg _ _ _ _ _ (by norm_num), rfl, rfl⟩, rfl⟩

/-- C1: a proof whose reward string is not a base-10 integer makes
`ProcessMockGPUProof` return the invalid-amount error, and no request at all is
sent to the node (no nonce query, no fee-price query, no broadcast, no receipt
poll). -/
theorem invalid_reward_fails_without_gateway_call (P : Primitives) (l : Listener)
    (proof : GPUProof) (fuel : Nat) (h : ¬ ∃ z, DenotesInt proof.Reward z) :
    (ProcessMockGPUProof P l proof fuel).outcome
        = .returned (some (.new (ascii "invalid reward amount: " ++ proof.Reward))) ∧
      (ProcessMockGPUProof P l proof fuel).calls = [] := by
  have hnone : setString proof.Reward 10 = none := by
    cases hs : setString proof.Reward 10 with
    | none => rfl
    | some z => exact absurd ⟨z, (setString_eq_some_iff _ z).1 hs⟩ h
  rw [process_invalid_amount P l proof fuel hnone]
  exact ⟨rfl, rfl⟩

/-- C1 at a concrete input: the mock proof with the reward string "abc" on the
simulated node. -/
theorem invalid_reward_fails_without_gateway_call_witness :
    (¬ ∃ z, DenotesInt (mockProof (ascii "abc")).Reward z) ∧
    (ProcessMockGPUProof simPrimitives (simListener true 0 (fun _ => none))
        (mockProof (ascii "abc")) 3).outcome
        = .returned (some (.new (ascii "invalid reward amount: abc"))) ∧
      (ProcessMockGPUProof simPrimitives (simListener true 0 (fun _ => none))
        (mockProof (ascii "abc")) 3).calls = [] :=
  have h : ¬ ∃ z, DenotesInt (mockProof (ascii "abc")).Reward z := fun ⟨z, hz⟩ => by
    have hs := (setString_eq_some_iff _ z).2 hz
    have hn : setString (mockProof (ascii "abc")).Reward 10 = none := by decide
    rw [hn] at hs
    exact Option.noConfusion hs
  ⟨h, invalid_reward_fails_without_gateway_call simPrimitives
    (simListener true 0 (fun _ => none)) (mockProof (ascii "abc")) 3 h⟩

/-- C2: when every step up to and including the broadcast succeeds and the node
then returns a receipt with status 0, `ProcessMockGPUProof` returns the error
"transaction failed" after a single broadcast; when instead the broadcast is
rejected it returns "failed to send transaction: " wrapping the node's error.
The two are different error values with different messages. -/
theorem reverted_receipt_is_not_submission_failure (P : Primitives) (l : Listener)
    (proof : GPUProof) (signedTx : SignedTx) (receipt : Receipt) (k fuel : Nat)
    (hb : BroadcastSucceeds P l proof signedTx)
    (hwait : ∀ j, j < k → l.client.TransactionReceipt signedTx j = none)
    (hrec : l.client.TransactionReceipt signedTx k = some receipt)
    (hstatus : receipt.Status = 0) (hfuel : k < fuel) :
    (ProcessMockGPUProof P l proof fuel).outcome
        = .returned (some (.new (ascii "transaction failed"))) ∧
      (ProcessMockGPUProof P l proof fuel).broadcasts = 1 ∧
      (∀ (P1 : Primitives) (l1 : Listener) (proof1 : GPUProof) (stx : SignedTx) (err : GoError)
          (fuel1 : Nat),
        ReachesBroadcast P1 l1 proof1 stx → l1.client.SendTransaction stx = some err →
        (ProcessMockGPUProof P1 l1 proof1 fuel1).outcome
            = .returned (some (.wrap (ascii "failed to send transaction: ") err)) ∧
          (ProcessMockGPUProof P1 l1 proof1 fuel1).outcome
            ≠ (ProcessMockGPUProof P l proof fuel).outcome ∧
          (GoError.wrap (ascii "failed to send transaction: ") err).Error
            ≠ (GoError.new (ascii "transaction failed")).Error) := by
  obtain ⟨sender, hrun⟩ := process_after_broadcast P l proof signedTx hb fuel
  have hw := waitMined_found (l.client.TransactionReceipt signedTx) receipt k 0 fuel
    (fun j _ hj => hwait j (by omega)) (by simpa using hrec) hfuel
  rw [hw] at hrun
  simp only [hstatus, if_true] at hrun
  have hout : (ProcessMockGPUProof P l proof fuel).outcome
      = .returned (some (.new (ascii "transaction failed"))) := by rw [hrun]
  refine ⟨hout, ?_, ?_⟩
  · rw [hrun]
    exact broadcasts_of_calls _ _ _ _
  · intro P1 l1 proof1 stx err fuel1 hr hsend
    have h1 := process_send_rejected P1 l1 proof1 stx hr err hsend fuel1
    refine ⟨h1, ?_, ?_⟩
    · rw [h1, hout]
      simp
    · simp [GoError.Error, ascii]

/-- C2 at a concrete input: the simulated node returns a status-0 receipt at the
third poll. -/
theorem reverted_receipt_is_not_submission_failure_witness :
    ∃ stx,
    BroadcastSucceeds simPrimitives
      (simListener true 7 (fun k => if k = 2 then some ⟨0, 100⟩ else none))
      (mockProof (ascii "1000000000000000000")) stx ∧
    (ProcessMockGPUProof simPrimitives
      (simListener true 7 (fun k => if k = 2 then some ⟨0, 100⟩ else none))
      (mockProof (ascii "1000000000000000000")) 5).outcome
        = .returned (some (.new (ascii "transaction failed"))) := by
  obtain ⟨data, hb⟩ := sim_broadcast_succeeds true 7 (fun k => if k = 2 then some ⟨0, 100⟩ else none)
  exact ⟨_, hb, (reverted_receipt_is_not_submission_failure simPrimitives
    (simListener true 7 (fun k => if k = 2 then some ⟨0, 100⟩ else none))
    (mockProof (ascii "1000000000000000000")) _ ⟨0, 100⟩ 2 5 hb
    (fun j hj => by
      show (if j = 2 then some (⟨0, 100⟩ : Receipt) else none) = none
      rw [if_neg (by omega)])
    rfl rfl (by decide)).1⟩

theorem process_never_receipted (P : Primitives) (l : Listener) (proof : GPUProof)
    (signedTx : SignedTx) (hb : BroadcastSucceeds P l proof signedTx)
    (hnever : ∀ j, l.client.TransactionReceipt signedTx j = none) (fuel : Nat) :
    ∃ sender, ProcessMockGPUProof P l proof fuel
      = ⟨[.pendingNonceAt sender, .suggestGasPrice, .sendTransaction signedTx]
          ++ List.replicate fuel .transactionReceipt, .waiting⟩ := by
  obtain ⟨sender, hrun⟩ := process_after_broadcast P l proof signedTx hb fuel
  rw [waitMined_never _ hnever fuel 0] at hrun
  simp only [Nat.zero_add] at hrun
  exact ⟨sender, hrun⟩

/-- C3 (as the code behaves): when every step up to and including the broadcast
succeeds and the node never returns a receipt, `ProcessMockGPUProof` does not
return, however many polls are allowed: it keeps polling inside `WaitMined`,
which is called with `context.Background()` and so has no horizon. Exactly one
broadcast has been made, and each further request is a receipt poll. -/
theorem unreceipted_broadcast_waits_forever (P : Primitives) (l : Listener) (proof : GPUProof)
    (signedTx : SignedTx) (hb : BroadcastSucceeds P l proof signedTx)
    (hnever : ∀ j, l.client.TransactionReceipt signedTx j = none) (fuel : Nat) :
    (ProcessMockGPUProof P l proof fuel).outcome = .waiting ∧
      (ProcessMockGPUProof P l proof fuel).broadcasts = 1 ∧
      (ProcessMockGPUProof P l proof fuel).calls.drop 3
        = List.replicate fuel .transactionReceipt := by
  obtain ⟨sender, hrun⟩ := process_never_receipted P l proof signedTx hb hnever fuel
  rw [hrun]
  exact ⟨rfl, broadcasts_of_calls _ _ _ _, rfl⟩

/-- C3 at a concrete input: the simulated node never returns a receipt; after
ten polls the call is still waiting and has broadcast once. -/
theorem unreceipted_broadcast_waits_forever_witness :
    ∃ stx,
    BroadcastSucceeds simPrimitives (simListener true 7 (fun _ => none))
      (mockProof (ascii "1000000000000000000")) stx ∧
    (ProcessMockGPUProof simPrimitives (simListener true 7 (fun _ => none))
      (mockProof (ascii "1000000000000000000")) 10).outcome = .waiting ∧
    (ProcessMockGPUProof simPrimitives (simListener true 7 (fun _ => none))
      (mockProof (ascii "1000000000000000000")) 10).broadcasts = 1 := by
  obtain ⟨data, hb⟩ := sim_broadcast_succeeds true 7 (fun _ => none)
  have h := unreceipted_broadcast_waits_forever simPrimitives (simListener true 7 (fun _ => none))
    (mockProof (ascii "1000000000000000000")) _ hb (fun _ => rfl) 10
  exact ⟨_, hb, h.1, h.2.1⟩

/-- C3, counterexample: on the simulated node that accepts the broadcast and never
returns a receipt, no number of polls makes `ProcessMockGPUProof` return: there
is no `Unconfirmed` outcome, and no other one either. -/
theorem no_unconfirmed_outcome_on_silent_node :
    ¬ ∃ fuel result,
      (ProcessMockGPUProof simPrimitives (simListener true 7 (fun _ => none))
        (mockProof (ascii "1000000000000000000")) fuel).outcome = .returned result := by
  rintro ⟨fuel, result, h⟩
  obtain ⟨data, hb⟩ := sim_broadcast_succeeds true 7 (fun _ => none)
  obtain ⟨sender, hrun⟩ := process_never_receipted simPrimitives
    (simListener true 7 (fun _ => none)) (mockProof (ascii "1000000000000000000")) _ hb
    (fun _ => rfl) fuel
  rw [hrun] at h
  exact Outcome.noConfusion h

/-! ## The nonce conversion -/

theorem nonce_conversion_small (n : Nat) (h : n ≤ 2 ^ 63) :
    bigUint64 (bigNewInt (toInt64 n)) = n := by
  unfold bigUint64 bigNewInt toInt64
  split_ifs <;> omega

theorem nonce_conversion_large (n : Nat) (h1 : 2 ^ 63 < n) (h2 : n < 2 ^ 64) :
    bigUint64 (bigNewInt (toInt64 n)) = 2 ^ 64 - n := by
  unfold bigUint64 bigNewInt toInt64
  split_ifs <;> omega

/-- C9, the code at the failing input: when the node reports the pending nonce
`2^64 - 1`, the transaction that `ProcessMockGPUProof` signs and broadcasts
carries nonce 1, because `int64(nonce)` is `-1` and `Uint64()` of the big integer
`-1` is the magnitude 1. -/
theorem max_nonce_is_broadcast_as_one :
    ∃ sender stx,
      (simListener true (2 ^ 64 - 1) (fun _ => none)).client.PendingNonceAt sender
        = .ok 18446744073709551615 ∧
      (ProcessMockGPUProof simPrimitives (simListener true (2 ^ 64 - 1) (fun _ => none))
        (mockProof (ascii "1000000000000000000")) 0).calls
        = [.pendingNonceAt sender, .suggestGasPrice, .sendTransaction stx] ∧
      stx.tx.nonce = 1 := by
  obtain ⟨data, hb⟩ := sim_broadcast_succeeds true (2 ^ 64 - 1) (fun _ => none)
  obtain ⟨sender, hrun⟩ := process_never_receipted simPrimitives
    (simListener true (2 ^ 64 - 1) (fun _ => none)) (mockProof (ascii "1000000000000000000")) _ hb
    (fun _ => rfl) 0
  refine ⟨sender, ⟨⟨bigUint64 (bigNewInt (toInt64 (2 ^ 64 - 1))), ⟨List.replicate 20 2, rfl⟩, 0,
    300000, 1, data⟩, []⟩, rfl, ?_, ?_⟩
  · rw [hrun]
    rfl
  · exact nonce_conversion_large (2 ^ 64 - 1) (by norm_num) (by norm_num)

/-! ## The amount-parsing step -/

/-- C10, counterexample: the reward string "-5" is accepted by the parsing step
with the amount -5; the call does not return the invalid-amount error, and the
negative amount reaches the call encoder (whose sign check, where present, is
what fails). -/
theorem negative_reward_is_parsed :
    setString (ascii "-5") 10 = some (-5) ∧
    (ProcessMockGPUProof simPrimitives (simListener true 7 (fun _ => none))
        (mockProof (ascii "-5")) 0).outcome
      = .returned (some (.wrap (ascii "failed to pack function: ")
          (.new (ascii "abi: negatively-signed value cannot be packed into uint parameter")))) := by
  have h : setString (mockProof (ascii "-5")).Reward 10 = some (-5) := by decide
  refine ⟨by decide, ?_⟩
  simp only [ProcessMockGPUProof, jsonMarshal, h, simPrimitives, simListener, simClient, simABI,
    ABI.Pack]
  simp

/-- C10 (as the code behaves): the amount-parsing step succeeds exactly when the
reward string is a non-empty run of decimal digits after an optional `+` or `-`,
and the amount is then the signed integer the string denotes, at arbitrary
precision; every other string makes `ProcessMockGPUProof` return the
invalid-amount error; the amount is negative only for a string that starts
with `-`. -/
theorem reward_parse_accepts_signed_decimal (s : Bytes) :
    (∀ z, setString s 10 = some z ↔ DenotesInt s z) ∧
    ((¬ ∃ z, DenotesInt s z) →
      ∀ (P : Primitives) (l : Listener) (proof : GPUProof) (fuel : Nat), proof.Reward = s →
        (ProcessMockGPUProof P l proof fuel).outcome
          = .returned (some (.new (ascii "invalid reward amount: " ++ s)))) ∧
    (∀ z, setString s 10 = some z → z < 0 → ∃ t, s = 45 :: t) := by
  refine ⟨setString_eq_some_iff s, ?_, ?_⟩
  · intro h P l proof fuel hs
    subst hs
    have hnone : setString proof.Reward 10 = none := by
      cases hs : setString proof.Reward 10 with
      | none => rfl
      | some z => exact absurd ⟨z, (setString_eq_some_iff _ z).1 hs⟩ h
    rw [process_invalid_amount P l proof fuel hnone]
  · intro z hz hneg
    rcases (setString_eq_some_iff s z).1 hz with ⟨n, _, rfl⟩ | ⟨t, n, _, _, rfl⟩ | ⟨t, n, h, _, _⟩
    · omega
    · omega
    · exact ⟨t, h⟩

/-- C10 at a concrete input: the reward string "+42". -/
theorem reward_parse_accepts_signed_decimal_witness :
    DenotesInt (ascii "+42") 42 ∧ setString (ascii "+42") 10 = some 42 :=
  ⟨((reward_parse_accepts_signed_decimal (ascii "+42")).1 42).1 (by decide), by decide⟩

/-! ## The event monitor -/

theorem bytesToAddress_topic (t : Hash) : bytesToAddress t.1 = topicAddress t := by
  apply Subtype.ext
  simp [bytesToAddress, topicAddress, t.2]

theorem bytesToHash_topic (t : Hash) : bytesToHash t.1 = t := by
  apply Subtype.ext
  simp [bytesToHash, t.2]

theorem handleLog_eq_decodeLog (abi : ABI) (logEntry : Log) :
    handleLog abi logEntry
      = match decodeLog abi logEntry with
        | some event => .emitted event
        | none => .discarded := by
  obtain ⟨topics, data, block⟩ := logEntry
  unfold handleLog decodeLog
  match topics with
  | [] => simp
  | [_] => simp
  | [_, _] => simp
  | [_, _, _] => simp
  | _ :: t1 :: t2 :: t3 :: _ =>
    simp only [List.length_cons, List.get?_cons_succ, List.get?_cons_zero]
    rw [if_neg (by omega), bytesToAddress_topic, bytesToHash_topic, bytesToAddress_topic]
    cases abi.unpackEvent data with
    | error e => rfl
    | ok v => rfl

theorem listenLoop_logs (abi : ABI) (logs : List Log) (rest : List Select) (m : Monitor) :
    listenLoop abi (logs.map .log ++ rest) m
      = listenLoop abi rest { m with emitted := m.emitted ++ logs.filterMap (decodeLog abi) } := by
  induction logs generalizing m with
  | nil => simp
  | cons logEntry logs ih =>
    simp only [List.map_cons, List.cons_append, listenLoop, handleLog_eq_decodeLog]
    cases hd : decodeLog abi logEntry with
    | none =>
      simp only [List.filterMap_cons, hd]
      exact ih m
    | some event =>
      simp only [List.filterMap_cons, hd]
      have := ih { m with emitted := m.emitted ++ [event] }
      simp only [List.append_assoc, List.singleton_append] at this
      exact this

theorem listen_logs (l : Listener) (hsub : l.client.SubscribeFilterLogs = none) (logs : List Log)
    (rest : List Select) :
    ListenForEvents l (logs.map .log ++ rest)
      = listenLoop l.routerABI rest ⟨.listening, logs.filterMap (decodeLog l.routerABI), 0⟩ := by
  unfold ListenForEvents
  rw [hsub]
  simp only
  rw [listenLoop_logs]
  simp

/-- C4, counterexample: cancelling the simulated monitor makes `ListenForEvents`
return `ctx.Err()`, the non-nil error `context.Canceled`; the returned value is
not `nil`. -/
theorem cancellation_is_returned_as_error :
    (ListenForEvents (simListener true 0 (fun _ => none)) [.log goodLog, .done .Canceled]).state
        = .terminated (some (.new (ascii "context canceled"))) ∧
      (ListenForEvents (simListener true 0 (fun _ => none)) [.log goodLog, .done .Canceled]).state
        ≠ .terminated none := by
  have h := listen_logs (simListener true 0 (fun _ => none)) rfl [goodLog] [.done .Canceled]
  simp only [List.map_cons, List.map_nil, List.cons_append, List.nil_append] at h
  rw [h]
  simp [listenLoop, ContextErr.toError]

/-- C4 (as the code behaves): once the subscription exists, if the cancellation
signal fires after any number of log records, the monitor terminates, the
subscription has been released exactly once, and the returned value is the
context's own error `ctx.Err()` (non-nil, unwrapped). It is never the
subscription-error outcome: neither the same error value nor the same message. -/
theorem cancellation_terminates_with_context_error (l : Listener) (logs : List Log)
    (c : ContextErr) (rest : List Select) (hsub : l.client.SubscribeFilterLogs = none) :
    (ListenForEvents l (logs.map .log ++ .done c :: rest)).state
        = .terminated (some c.toError) ∧
      (ListenForEvents l (logs.map .log ++ .done c :: rest)).unsubscribes = 1 ∧
      (∀ err, c.toError ≠ .wrap (ascii "subscription error: ") err) ∧
      (∀ err, c.toError.Error ≠ (GoError.wrap (ascii "subscription error: ") err).Error) := by
  rw [listen_logs l hsub]
  refine ⟨rfl, rfl, ?_, ?_⟩
  · intro err
    cases c <;> simp [ContextErr.toError]
  · intro err
    cases c <;> simp [ContextErr.toError, GoError.Error, ascii]

/-- C4 at a concrete input: two logs, then the cancellation, then a log that is
never read. -/
theorem cancellation_terminates_with_context_error_witness :
    (ListenForEvents (simListener true 0 (fun _ => none))
        ([goodLog, malformedLog].map .log ++ .done .Canceled :: [.log goodLog])).state
        = .terminated (some ContextErr.Canceled.toError) ∧
      (ListenForEvents (simListener true 0 (fun _ => none))
        ([goodLog, malformedLog].map .log ++ .done .Canceled :: [.log goodLog])).unsubscribes = 1 :=
  have h := cancellation_terminates_with_context_error (simListener true 0 (fun _ => none))
    [goodLog, malformedLog] .Canceled [.log goodLog] rfl
  ⟨h.1, h.2.1⟩

/-- C5: with the subscription created, after any finite sequence of log records
the monitor is still listening and has reported exactly the decodings, in
order, of the records that have at least four topics and a decodable payload.
The decoding of such a record is fixed byte for byte: the listener is bytes 12
to 31 of `Topics[1]`, the proof hash is `Topics[2]`, the beneficiary is bytes 12
to 31 of `Topics[3]`, the amount and the label are what the decode capability
returns for the payload, and the block is the record's block number. In
particular a record with four topics and an undecodable payload reports
nothing, and inserting it anywhere in the sequence changes nothing of what is
reported for the others. -/
theorem emitted_events_are_the_decodable_logs_in_order (l : Listener) (logs : List Log)
    (hsub : l.client.SubscribeFilterLogs = none) :
    (ListenForEvents l (logs.map .log)).emitted = logs.filterMap (decodeLog l.routerABI) ∧
      (ListenForEvents l (logs.map .log)).state = .listening ∧
      (ListenForEvents l (logs.map .log)).unsubscribes = 0 ∧
      (∀ (t0 t1 t2 t3 : Hash) (more : List Hash) (data : Bytes) (block : Nat) (amount : Int)
          (label : Bytes),
        l.routerABI.unpackEvent data = .ok (amount, label) →
        ∃ event : DecodedEvent,
          handleLog l.routerABI ⟨t0 :: t1 :: t2 :: t3 :: more, data, block⟩ = .emitted event ∧
          (ListenForEvents l [.log ⟨t0 :: t1 :: t2 :: t3 :: more, data, block⟩]).emitted
            = [event] ∧
          event.listener.1 = t1.1.drop 12 ∧ event.proofHash = t2 ∧
          event.user.1 = t3.1.drop 12 ∧ event.amount = amount ∧ event.targetLST = label ∧
          event.block = block) ∧
      (∀ (bad : Log) (err : GoError), 4 ≤ bad.Topics.length →
        l.routerABI.unpackEvent bad.Data = .error err →
        decodeLog l.routerABI bad = none ∧
        (ListenForEvents l [.log bad]).emitted = [] ∧
        (ListenForEvents l [.log bad]).state = .listening ∧
        ∀ (before after : List Log),
          (ListenForEvents l ((before ++ bad :: after).map .log)).emitted
            = (ListenForEvents l ((before ++ after).map .log)).emitted) := by
  have key : ∀ ls : List Log, ListenForEvents l (ls.map .log)
      = ⟨.listening, ls.filterMap (decodeLog l.routerABI), 0⟩ := by
    intro ls
    have := listen_logs l hsub ls []
    simpa [listenLoop] using this
  refine ⟨by rw [key], by rw [key], by rw [key], ?_, ?_⟩
  · intro t0 t1 t2 t3 more data block amount label hok
    have hdec : decodeLog l.routerABI ⟨t0 :: t1 :: t2 :: t3 :: more, data, block⟩
        = some ⟨topicAddress t1, t2, topicAddress t3, amount, label, block⟩ := by
      simp only [decodeLog, hok]
    refine ⟨⟨topicAddress t1, t2, topicAddress t3, amount, label, block⟩, ?_, ?_, rfl, rfl, rfl,
      rfl, rfl, rfl⟩
    · rw [handleLog_eq_decodeLog, hdec]
    · have := key [⟨t0 :: t1 :: t2 :: t3 :: more, data, block⟩]
      simp only [List.map_cons, List.map_nil] at this
      rw [this]
      simp [hdec]
  · intro bad err htop hbad
    have hnone : decodeLog l.routerABI bad = none := by
      unfold decodeLog
      match hT : bad.Topics with
      | [] => rfl
      | [_] => rfl
      | [_, _] => rfl
      | [_, _, _] => rfl
      | _ :: t1 :: t2 :: t3 :: _ => simp only [hbad]
    refine ⟨hnone, ?_, ?_, ?_⟩
    · have := key [bad]
      simp only [List.map_cons, List.map_nil] at this
      rw [this]
      simp [hnone]
    · have := key [bad]
      simp only [List.map_cons, List.map_nil] at this
      rw [this]
    · intro before after
      rw [key, key]
      simp [List.filterMap_append, hnone]

set_option maxRecDepth 100000 in
/-- C5 at a concrete input: a short log, a malformed log and two well-formed
logs, in this order, report exactly the decodings of the last two, in order;
the first has the listener `Topics[1][12:32]`, the proof hash `Topics[2]` and
the beneficiary `Topics[3][12:32]` of its record, byte for byte (evaluated on
the monitor itself), and the monitor is still listening. -/
theorem emitted_events_are_the_decodable_logs_in_order_witness :
    (ListenForEvents (simListener true 0 (fun _ => none))
        ([shortLog, malformedLog, addressedLog, goodLog].map .log)).emitted
      = [⟨⟨[0x01, 0x02, 0x03, 0x04, 0x05, 0x06, 0x07, 0x08, 0x09, 0x0A,
              0x0B, 0x0C, 0x0D, 0x0E, 0x0F, 0x10, 0x11, 0x12, 0x13, 0x14], rfl⟩,
          ⟨[0x20, 0x21, 0x22, 0x23, 0x24, 0x25, 0x26, 0x27, 0x28, 0x29, 0x2A, 0x2B,
              0x2C, 0x2D, 0x2E, 0x2F, 0x30, 0x31, 0x32, 0x33, 0x34, 0x35,
              0x36, 0x37, 0x38, 0x39, 0x3A, 0x3B, 0x3C, 0x3D, 0x3E, 0x3F], rfl⟩,
          ⟨[0x41, 0x42, 0x43, 0x44, 0x45, 0x46, 0x47, 0x48, 0x49, 0x4A,
              0x4B, 0x4C, 0x4D, 0x4E, 0x4F, 0x50, 0x51, 0x52, 0x53, 0x54], rfl⟩,
          5, [115, 116, 107, 88, 80, 82, 84], 42⟩,
        ⟨⟨[1, 1, 1, 1, 1, 1, 1, 1, 1, 1, 1, 1, 1, 1, 1, 1, 1, 1, 1, 1], rfl⟩,
          ⟨[2, 2, 2, 2, 2, 2, 2, 2, 2, 2, 2, 2, 2, 2, 2, 2,
              2, 2, 2, 2, 2, 2, 2, 2, 2, 2, 2, 2, 2, 2, 2, 2], rfl⟩,
          ⟨[3, 3, 3, 3, 3, 3, 3, 3, 3, 3, 3, 3, 3, 3, 3, 3, 3, 3, 3, 3], rfl⟩,
          5, [115, 116, 107, 88, 80, 82, 84], 42⟩] ∧
    (ListenForEvents (simListener true 0 (fun _ => none))
        ([shortLog, malformedLog, addressedLog, goodLog].map .log)).emitted
      = [shortLog, malformedLog, addressedLog, goodLog].filterMap
          (decodeLog (simListener true 0 (fun _ => none)).routerABI) ∧
    (ListenForEvents (simListener true 0 (fun _ => none))
        ([shortLog, malformedLog, addressedLog, goodLog].map .log)).state = .listening :=
  ⟨by decide,
    (emitted_events_are_the_decodable_logs_in_order (simListener true 0 (fun _ => none))
      [shortLog, malformedLog, addressedLog, goodLog] rfl).1,
    (emitted_events_are_the_decodable_logs_in_order (simListener true 0 (fun _ => none))
      [shortLog, malformedLog, addressedLog, goodLog] rfl).2.1⟩

theorem handleLog_never_panics (abi : ABI) (logEntry : Log) : handleLog abi logEntry ≠ .panic := by
  rw [handleLog_eq_decodeLog]
  cases decodeLog abi logEntry <;> simp

/-- C6: a log record with fewer than four topics, whatever its payload, is
discarded: handling it reports no event and does not panic (no topic is
indexed), and the loop goes on from the same monitor (still listening, nothing
reported, nothing released). -/
theorem short_log_is_discarded (abi : ABI) (logEntry : Log) (h : logEntry.Topics.length < 4) :
    handleLog abi logEntry = .discarded ∧
      (∀ (rest : List Select) (m : Monitor),
        listenLoop abi (.log logEntry :: rest) m = listenLoop abi rest m) ∧
      (∀ l : Listener, l.routerABI = abi → l.client.SubscribeFilterLogs = none →
        (ListenForEvents l [.log logEntry]).state = .listening ∧
        (ListenForEvents l [.log logEntry]).emitted = [] ∧
        (ListenForEvents l [.log logEntry]).unsubscribes = 0) := by
  have hd : handleLog abi logEntry = .discarded := by
    unfold handleLog
    rw [if_pos h]
  refine ⟨hd, ?_, ?_⟩
  · intro rest m
    simp only [listenLoop, hd]
  · intro l hl hsub
    subst hl
    simp only [ListenForEvents, hsub, listenLoop, hd]
    trivial

/-- C6 at a concrete input: the three-topic log. -/
theorem short_log_is_discarded_witness :
    handleLog (simABI true) shortLog = .discarded ∧
      (ListenForEvents (simListener true 0 (fun _ => none)) [.log shortLog]).state = .listening ∧
      (ListenForEvents (simListener true 0 (fun _ => none)) [.log shortLog]).emitted = [] :=
  have h := short_log_is_discarded (simABI true) shortLog (by decide)
  ⟨h.1, (h.2.2 (simListener true 0 (fun _ => none)) rfl rfl).1,
    (h.2.2 (simListener true 0 (fun _ => none)) rfl rfl).2.1⟩

/-! ## The call payload -/

theorem bigEndian_length (len n : Nat) : (bigEndian len n).length = len := by
  induction len generalizing n with
  | zero => rfl
  | succ len ih => simp [bigEndian, ih]

theorem setBytes_append_singleton (xs : Bytes) (x : Nat) :
    setBytes (xs ++ [x]) = setBytes xs * 256 + x := by
  simp [setBytes, List.foldl_append]

theorem setBytes_bigEndian (len n : Nat) : setBytes (bigEndian len n) = n % 256 ^ len := by
  induction len generalizing n with
  | zero => simp [bigEndian, setBytes, Nat.mod_one]
  | succ len ih =>
    rw [bigEndian, setBytes_append_singleton, ih, pow_succ, Nat.mul_comm (256 ^ len) 256,
      Nat.mod_mul]
    ring

theorem u256Bytes_length (z : Int) : (u256Bytes z).length = 32 := bigEndian_length 32 _

theorem setBytes_u256Bytes (z : Int) (h0 : 0 ≤ z) (h1 : z < 2 ^ 256) :
    (setBytes (u256Bytes z) : Int) = z := by
  unfold u256Bytes
  rw [setBytes_bigEndian, Int.emod_eq_of_lt h0 h1]
  have h2 : z.toNat < 256 ^ 32 := by
    have : ((z.toNat : Nat) : Int) = z := Int.toNat_of_nonneg h0
    have h3 : (256 : Int) ^ 32 = 2 ^ 256 := by norm_num
    omega
  rw [Nat.mod_eq_of_lt h2]
  exact Int.toNat_of_nonneg h0

theorem setBytes_u256Bytes_nat (n : Nat) (h : n < 2 ^ 256) : setBytes (u256Bytes (n : Int)) = n := by
  have := setBytes_u256Bytes (n : Int) (Int.natCast_nonneg n) (by exact_mod_cast h)
  exact_mod_cast this

theorem slice_mid (a b c : Bytes) (lo hi : Nat) (hlo : lo = a.length)
    (hhi : hi = a.length + b.length) : slice (a ++ (b ++ c)) lo hi = b := by
  subst hlo hhi
  unfold slice
  rw [List.drop_left, Nat.add_sub_cancel_left, List.take_left]

theorem rightPadBytes_eq_append (b : Bytes) (l : Nat) : ∃ z, rightPadBytes b l = b ++ z := by
  unfold rightPadBytes
  split_ifs
  · exact ⟨[], by simp⟩
  · exact ⟨_, rfl⟩

theorem unpackCall_pack (sel : Word 4) (proofHash : Hash) (user : Address) (amount : Int)
    (label : Bytes) (hlen : label.length < 2 ^ 62) :
    unpackCall (sel.1 ++ ((rightPadBytes proofHash.1 32 ++ leftPadBytes user.1 32
        ++ u256Bytes amount ++ u256Bytes ((4 * 32 : Nat) : Int))
        ++ packBytesSlice label label.length))
      = some ((setBytes (u256Bytes amount) : Int), label) := by
  obtain ⟨z, hz⟩ := rightPadBytes_eq_append label ((label.length + 31) / 32 * 32)
  have hW0 : (rightPadBytes proofHash.1 32).length = 32 := by
    unfold rightPadBytes
    rw [if_pos (by rw [proofHash.2])]
    exact proofHash.2
  have hW1 : (leftPadBytes user.1 32).length = 32 := by
    unfold leftPadBytes
    rw [if_neg (by rw [user.2]; omega)]
    simp [user.2]
  have hW2 : (u256Bytes amount).length = 32 := u256Bytes_length _
  have hW3 : (u256Bytes ((4 * 32 : Nat) : Int)).length = 32 := u256Bytes_length _
  have hL : (u256Bytes (label.length : Int)).length = 32 := u256Bytes_length _
  have hoff : setBytes (u256Bytes ((4 * 32 : Nat) : Int)) = 128 :=
    setBytes_u256Bytes_nat (4 * 32) (by norm_num)
  have hlab : setBytes (u256Bytes (label.length : Int)) = label.length :=
    setBytes_u256Bytes_nat _ (by
      have : (2 : Nat) ^ 62 < 2 ^ 256 := by norm_num
      omega)
  generalize hw0 : rightPadBytes proofHash.1 32 = W0 at hW0
  generalize hw1 : leftPadBytes user.1 32 = W1 at hW1
  generalize hw2 : u256Bytes amount = W2 at hW2
  unfold packBytesSlice
  rw [hz]
  generalize hw3 : u256Bytes ((4 * 32 : Nat) : Int) = W3 at hW3 hoff
  generalize hl : u256Bytes (label.length : Int) = L at hL hlab
  have hdata : (sel.1 ++ ((W0 ++ W1 ++ W2 ++ W3) ++ (L ++ (label ++ z)))).drop 4
      = W0 ++ W1 ++ W2 ++ W3 ++ L ++ label ++ z := by
    have := List.drop_left sel.1 ((W0 ++ W1 ++ W2 ++ W3) ++ (L ++ (label ++ z)))
    rw [sel.2] at this
    rw [this]
    simp [List.append_assoc]
  have hdlen : (W0 ++ W1 ++ W2 ++ W3 ++ L ++ label ++ z).length = 160 + label.length + z.length := by
    simp only [List.length_append, hW0, hW1, hW2, hW3, hL]
  have hamt : slice (W0 ++ W1 ++ W2 ++ W3 ++ L ++ label ++ z) 64 96 = W2 := by
    have e : W0 ++ W1 ++ W2 ++ W3 ++ L ++ label ++ z
        = (W0 ++ W1) ++ (W2 ++ (W3 ++ L ++ label ++ z)) := by simp [List.append_assoc]
    rw [e]
    exact slice_mid _ _ _ _ _ (by simp [hW0, hW1]) (by simp [hW0, hW1, hW2])
  have hofs : slice (W0 ++ W1 ++ W2 ++ W3 ++ L ++ label ++ z) 96 128 = W3 := by
    have e : W0 ++ W1 ++ W2 ++ W3 ++ L ++ label ++ z
        = (W0 ++ W1 ++ W2) ++ (W3 ++ (L ++ label ++ z)) := by simp [List.append_assoc]
    rw [e]
    exact slice_mid _ _ _ _ _ (by simp [hW0, hW1, hW2]) (by simp [hW0, hW1, hW2, hW3])
  have hlenw : slice (W0 ++ W1 ++ W2 ++ W3 ++ L ++ label ++ z) 128 160 = L := by
    have e : W0 ++ W1 ++ W2 ++ W3 ++ L ++ label ++ z
        = (W0 ++ W1 ++ W2 ++ W3) ++ (L ++ (label ++ z)) := by simp [List.append_assoc]
    rw [e]
    exact slice_mid _ _ _ _ _ (by simp [hW0, hW1, hW2, hW3]) (by simp [hW0, hW1, hW2, hW3, hL])
  have hstr : slice (W0 ++ W1 ++ W2 ++ W3 ++ L ++ label ++ z) 160 (160 + label.length) = label := by
    have e : W0 ++ W1 ++ W2 ++ W3 ++ L ++ label ++ z
        = (W0 ++ W1 ++ W2 ++ W3 ++ L) ++ (label ++ z) := by simp [List.append_assoc]
    rw [e]
    exact slice_mid _ _ _ _ _ (by simp [hW0, hW1, hW2, hW3, hL]) (by simp [hW0, hW1, hW2, hW3, hL])
  unfold unpackCall
  simp only [hdata]
  rw [if_neg (by rw [hdlen]; omega)]
  have h1 : readUint256 64 (W0 ++ W1 ++ W2 ++ W3 ++ L ++ label ++ z) = some (setBytes W2) := by
    unfold readUint256
    rw [if_neg (by rw [hdlen]; omega), hamt]
  have h2 : readString 96 (W0 ++ W1 ++ W2 ++ W3 ++ L ++ label ++ z) = some label := by
    unfold readString lengthPrefixPointsTo
    rw [if_neg (by rw [hdlen]; omega)]
    simp only [hofs, hoff, hdlen]
    rw [if_neg (by omega), if_neg (by norm_num)]
    simp only [Nat.add_sub_cancel, hlenw, hlab]
    rw [if_neg (by omega), if_neg (by omega)]
    simp only [hstr]
  rw [h1, h2]

/-- C8 (as the code behaves): for a reward string that the parsing step accepts
with an amount in the range of `uint256` (`0 ≤ amount < 2^256`) and any label,
the payload packed for `processGPUProof(proofHash, user, amount, targetLST)`
exists and, unpacked against the same schema, gives back exactly the parsed
amount and exactly the label; this is the payload of the transaction that
`ProcessMockGPUProof` hands to the broadcast. -/
theorem call_payload_round_trip (P : Primitives) (l : Listener) (proof : GPUProof) (amount : Int)
    (hparse : setString proof.Reward 10 = some amount) (h0 : 0 ≤ amount)
    (h1 : amount < 2 ^ 256) (hlen : proof.TargetLST.length < 2 ^ 62) :
    (∀ (proofHash : Hash) (user : Address),
      ∃ payload, l.routerABI.Pack proofHash user amount proof.TargetLST = .ok payload ∧
        unpackCall payload = some (amount, proof.TargetLST)) ∧
    (∀ stx, ReachesBroadcast P l proof stx →
      unpackCall stx.tx.data = some (amount, proof.TargetLST)) := by
  have key : ∀ (proofHash : Hash) (user : Address),
      ∃ payload, l.routerABI.Pack proofHash user amount proof.TargetLST = .ok payload ∧
        unpackCall payload = some (amount, proof.TargetLST) := by
    intro proofHash user
    refine ⟨_, pack_ok_of_nonneg _ _ _ _ _ h0, ?_⟩
    rw [unpackCall_pack _ _ _ _ _ hlen, setBytes_u256Bytes amount h0 h1]
  refine ⟨key, ?_⟩
  rintro stx ⟨proofJSON, amount1, sender, nonce, gasPrice, data, signature, _, ha, _, _, _, hp, _,
    rfl⟩
  rw [hparse] at ha
  obtain rfl : amount = amount1 := by simpa using ha
  obtain ⟨payload, hpack, hun⟩ := key (P.Keccak256Hash proofJSON) (P.HexToAddress proof.User)
  rw [hpack] at hp
  obtain rfl : payload = data := by simpa using hp
  exact hun

/-- C8 at the concrete input of the claim: the amount "1000000000000000000" with
the label "stkXPRT". -/
theorem call_payload_round_trip_witness :
    setString (mockProof (ascii "1000000000000000000")).Reward 10 = some 1000000000000000000 ∧
    ∃ payload,
      (simListener true 7 (fun _ => none)).routerABI.Pack (topicOf 9)
          (bytesToAddress [1, 2, 3]) 1000000000000000000 (ascii "stkXPRT") = .ok payload ∧
        unpackCall payload = some (1000000000000000000, ascii "stkXPRT") :=
  have hp : setString (mockProof (ascii "1000000000000000000")).Reward 10
      = some 1000000000000000000 := by decide
  ⟨hp, (call_payload_round_trip simPrimitives (simListener true 7 (fun _ => none))
    (mockProof (ascii "1000000000000000000")) 1000000000000000000 hp (by norm_num) (by norm_num)
    (by decide)).1 (topicOf 9) (bytesToAddress [1, 2, 3])⟩

set_option maxRecDepth 100000 in
/-- C8, counterexample: the reward string for `2^256` is accepted by the parsing
step, and its payload unpacks to the amount 0; the reward string "-5" is
accepted too, and its payload either does not exist (a codec that checks the
sign) or unpacks to `2^256 - 5` (a codec that does not). -/
theorem out_of_range_amount_does_not_round_trip :
    setString (ascii
        "115792089237316195423570985008687907853269984665640564039457584007913129639936") 10
      = some (2 ^ 256) ∧
    (∃ payload, (simABI true).Pack (topicOf 9) (bytesToAddress [1, 2, 3]) (2 ^ 256)
        (ascii "stkXPRT") = .ok payload ∧ unpackCall payload = some (0, ascii "stkXPRT")) ∧
    setString (ascii "-5") 10 = some (-5) ∧
    (∀ payload, (simABI true).Pack (topicOf 9) (bytesToAddress [1, 2, 3]) (-5) (ascii "stkXPRT")
      ≠ .ok payload) ∧
    (∃ payload, (simABI false).Pack (topicOf 9) (bytesToAddress [1, 2, 3]) (-5)
        (ascii "stkXPRT") = .ok payload ∧
      unpackCall payload = some (2 ^ 256 - 5, ascii "stkXPRT")) := by
  refine ⟨by decide, ⟨_, pack_ok_of_nonneg _ _ _ _ _ (by norm_num), ?_⟩, by decide, ?_, ?_⟩
  · rw [unpackCall_pack _ _ _ _ _ (by decide)]
    decide
  · intro payload h
    simp [ABI.Pack, simABI] at h
  · have e : ((simABI false).Pack (topicOf 9) (bytesToAddress [1, 2, 3]) (-5) (ascii "stkXPRT"))
        = .ok ((simABI false).methodID.1 ++ ((rightPadBytes (topicOf 9).1 32
          ++ leftPadBytes (bytesToAddress [1, 2, 3]).1 32
          ++ u256Bytes (-5) ++ u256Bytes ((4 * 32 : Nat) : Int))
          ++ packBytesSlice (ascii "stkXPRT") (ascii "stkXPRT").length)) := by
      simp [ABI.Pack, simABI]
    refine ⟨_, e, ?_⟩
    rw [unpackCall_pack _ _ _ _ _ (by decide)]
    decide

/-! ## The JSON form of a proof record -/

theorem first_cases (b : Nat) (hb : 0x80 ≤ b) :
    ((b < 0xC2 ∨ 0xF4 < b) ∧ first b = 0xF1) ∨
    ((0xC2 ≤ b ∧ b < 0xE0) ∧ first b = 0x02) ∨
    (b = 0xE0 ∧ first b = 0x13) ∨
    (((0xE1 ≤ b ∧ b ≤ 0xEC) ∨ b = 0xEE ∨ b = 0xEF) ∧ first b = 0x03) ∨
    (b = 0xED ∧ first b = 0x23) ∨
    (b = 0xF0 ∧ first b = 0x34) ∨
    ((0xF1 ≤ b ∧ b ≤ 0xF3) ∧ first b = 0x04) ∨
    (b = 0xF4 ∧ first b = 0x44) := by
  unfold first
  split_ifs
  all_goals first
    | (left; omega)
    | (right; left; omega)
    | (right; right; left; omega)
    | (right; right; right; left; omega)
    | (right; right; right; right; left; omega)
    | (right; right; right; right; right; left; omega)
    | (right; right; right; right; right; right; left; omega)
    | (right; right; right; right; right; right; right; omega)

theorem first_leader (b : Nat) (hb : 0x80 ≤ b) :
    first b = 0xF1 ∨ (first b < 0xF0 ∧ 2 ≤ first b % 8) := by
  unfold first
  split_ifs
  all_goals first
    | (left; omega)
    | (right; omega)

theorem decode_len_one (b : Nat) (hb : 0x80 ≤ b) :
    decodeRuneInString [b] = (RuneError, 1) := by
  rcases first_leader b hb with h | ⟨hlt, hsz⟩
  · simp [decodeRuneInString, h]
  · simp only [decodeRuneInString, List.length_cons, List.length_nil, List.getD_cons_zero]
    rw [if_neg (by omega), if_neg (by omega), if_pos (by omega)]

theorem decode_invalid_leader (b : Nat) (s : Bytes) (h : first b = 0xF1) :
    decodeRuneInString (b :: s) = (RuneError, 1) := by
  simp [decodeRuneInString, h]

theorem decode_two (b s1 : Nat) (s : Bytes) (h : first b = 0x02) :
    decodeRuneInString (b :: s1 :: s)
      = if s1 < 0x80 ∨ 0xBF < s1 then (RuneError, 1) else ((b % 32) * 64 + s1 % 64, 2) := by
  simp [decodeRuneInString, h, acceptRanges]

theorem decode_three (b s1 s2 x lo hi : Nat) (s : Bytes) (h : first b = x) (hx : x % 8 = 3)
    (hx2 : x < 0xF0) (ha : acceptRanges (x / 16) = (lo, hi)) :
    decodeRuneInString (b :: s1 :: s2 :: s)
      = if s1 < lo ∨ hi < s1 then (RuneError, 1)
        else if s2 < 0x80 ∨ 0xBF < s2 then (RuneError, 1)
        else ((b % 16) * 4096 + (s1 % 64) * 64 + s2 % 64, 3) := by
  have h3 : ¬ (x ≥ 0xF0) := by omega
  simp only [decodeRuneInString, h, hx, ha, List.length_cons, List.getD_cons_zero,
    List.getD_cons_succ]
  rw [if_neg (by omega), if_neg h3, if_neg (by omega)]
  simp

theorem decode_three_short (b s1 x : Nat) (h : first b = x) (hx : x % 8 = 3 ∨ x % 8 = 4)
    (hx2 : x < 0xF0) :
    decodeRuneInString [b, s1] = (RuneError, 1) := by
  have h3 : ¬ (x ≥ 0xF0) := by omega
  simp only [decodeRuneInString, List.length_cons, List.length_nil, List.getD_cons_zero, h]
  rw [if_neg (by omega), if_neg h3, if_pos (by omega)]

theorem decode_four_short (b s1 s2 x : Nat) (h : first b = x) (hx : x % 8 = 4)
    (hx2 : x < 0xF0) :
    decodeRuneInString [b, s1, s2] = (RuneError, 1) := by
  have h3 : ¬ (x ≥ 0xF0) := by omega
  simp only [decodeRuneInString, List.length_cons, List.length_nil, List.getD_cons_zero, h]
  rw [if_neg (by omega), if_neg h3, if_pos (by omega)]

theorem decode_four (b s1 s2 s3 x lo hi : Nat) (s : Bytes) (h : first b = x) (hx : x % 8 = 4)
    (hx2 : x < 0xF0) (ha : acceptRanges (x / 16) = (lo, hi)) :
    decodeRuneInString (b :: s1 :: s2 :: s3 :: s)
      = if s1 < lo ∨ hi < s1 then (RuneError, 1)
        else if s2 < 0x80 ∨ 0xBF < s2 then (RuneError, 1)
        else if s3 < 0x80 ∨ 0xBF < s3 then (RuneError, 1)
        else ((b % 8) * 262144 + (s1 % 64) * 4096 + (s2 % 64) * 64 + s3 % 64, 4) := by
  have h3 : ¬ (x ≥ 0xF0) := by omega
  simp only [decodeRuneInString, h, hx, ha, List.length_cons, List.getD_cons_zero,
    List.getD_cons_succ]
  rw [if_neg (by omega), if_neg h3, if_neg (by omega)]
  simp

theorem decode_class_two (b : Nat) (t : Bytes) (hb : 0x80 ≤ b) (h : first b = 0x02) :
    decodeRuneInString ((b :: t).take 4) = (RuneError, 1) ∨
    (∃ s1 t1, t = s1 :: t1 ∧ 0x80 ≤ s1 ∧ s1 ≤ 0xBF ∧
      decodeRuneInString ((b :: t).take 4) = ((b % 32) * 64 + s1 % 64, 2)) := by
  rcases t with _ | ⟨s1, t1⟩
  · exact Or.inl (decode_len_one b hb)
  · have e : (b :: s1 :: t1).take 4 = b :: s1 :: t1.take 2 := rfl
    rw [e, decode_two b s1 _ h]
    by_cases hc : s1 < 0x80 ∨ 0xBF < s1
    · rw [if_pos hc]
      exact Or.inl rfl
    · rw [if_neg hc]
      exact Or.inr ⟨s1, t1, rfl, by omega, by omega, rfl⟩

theorem decode_class_three (b x lo hi : Nat) (t : Bytes) (hb : 0x80 ≤ b) (h : first b = x)
    (hx : x % 8 = 3) (hx2 : x < 0xF0) (ha : acceptRanges (x / 16) = (lo, hi))
    (hlo : 0x80 ≤ lo) (hhi : hi ≤ 0xBF) :
    decodeRuneInString ((b :: t).take 4) = (RuneError, 1) ∨
    (∃ s1 s2 t2, t = s1 :: s2 :: t2 ∧ lo ≤ s1 ∧ s1 ≤ hi ∧ 0x80 ≤ s1 ∧ s1 ≤ 0xBF ∧
      0x80 ≤ s2 ∧ s2 ≤ 0xBF ∧
      decodeRuneInString ((b :: t).take 4)
        = ((b % 16) * 4096 + (s1 % 64) * 64 + s2 % 64, 3)) := by
  rcases t with _ | ⟨s1, _ | ⟨s2, t2⟩⟩
  · exact Or.inl (decode_len_one b hb)
  · exact Or.inl (decode_three_short b s1 x h (Or.inl hx) hx2)
  · have e : (b :: s1 :: s2 :: t2).take 4 = b :: s1 :: s2 :: t2.take 1 := rfl
    rw [e, decode_three b s1 s2 x lo hi _ h hx hx2 ha]
    by_cases hc : s1 < lo ∨ hi < s1
    · rw [if_pos hc]
      exact Or.inl rfl
    · rw [if_neg hc]
      by_cases hc2 : s2 < 0x80 ∨ 0xBF < s2
      · rw [if_pos hc2]
        exact Or.inl rfl
      · rw [if_neg hc2]
        exact Or.inr ⟨s1, s2, t2, rfl, by omega, by omega, by omega, by omega, by omega, by omega,
          rfl⟩

theorem decode_class_four (b x lo hi : Nat) (t : Bytes) (hb : 0x80 ≤ b) (h : first b = x)
    (hx : x % 8 = 4) (hx2 : x < 0xF0) (ha : acceptRanges (x / 16) = (lo, hi))
    (hlo : 0x80 ≤ lo) (hhi : hi ≤ 0xBF) :
    decodeRuneInString ((b :: t).take 4) = (RuneError, 1) ∨
    (∃ s1 s2 s3 t3, t = s1 :: s2 :: s3 :: t3 ∧ lo ≤ s1 ∧ s1 ≤ hi ∧ 0x80 ≤ s1 ∧ s1 ≤ 0xBF ∧
      0x80 ≤ s2 ∧ s2 ≤ 0xBF ∧ 0x80 ≤ s3 ∧ s3 ≤ 0xBF ∧
      decodeRuneInString ((b :: t).take 4)
        = ((b % 8) * 262144 + (s1 % 64) * 4096 + (s2 % 64) * 64 + s3 % 64, 4)) := by
  rcases t with _ | ⟨s1, _ | ⟨s2, _ | ⟨s3, t3⟩⟩⟩
  · exact Or.inl (decode_len_one b hb)
  · exact Or.inl (decode_three_short b s1 x h (Or.inr hx) hx2)
  · exact Or.inl (decode_four_short b s1 s2 x h hx hx2)
  · have e : (b :: s1 :: s2 :: s3 :: t3).take 4 = b :: s1 :: s2 :: s3 :: t3.take 0 := rfl
    rw [e, decode_four b s1 s2 s3 x lo hi _ h hx hx2 ha]
    by_cases hc : s1 < lo ∨ hi < s1
    · rw [if_pos hc]
      exact Or.inl rfl
    · rw [if_neg hc]
      by_cases hc2 : s2 < 0x80 ∨ 0xBF < s2
      · rw [if_pos hc2]
        exact Or.inl rfl
      · rw [if_neg hc2]
        by_cases hc3 : s3 < 0x80 ∨ 0xBF < s3
        · rw [if_pos hc3]
          exact Or.inl rfl
        · rw [if_neg hc3]
          exact Or.inr ⟨s1, s2, s3, t3, rfl, by omega, by omega, by omega, by omega, by omega,
            by omega, by omega, by omega, rfl⟩

/-- What `DecodeRuneInString` can return at a byte that is not ASCII: the error
pair, or a rune of two, three or four bytes whose continuation bytes lie in
`0x80..0xBF`. -/
theorem decode_cases (b : Nat) (t : Bytes) (hb : 0x80 ≤ b) :
    (decodeRuneInString ((b :: t).take 4) = (RuneError, 1)) ∨
    (∃ s1 t1, t = s1 :: t1 ∧ 0xC2 ≤ b ∧ b < 0xE0 ∧ 0x80 ≤ s1 ∧ s1 ≤ 0xBF ∧
      decodeRuneInString ((b :: t).take 4) = ((b % 32) * 64 + s1 % 64, 2)) ∨
    (∃ s1 s2 t2, t = s1 :: s2 :: t2 ∧ 0xE0 ≤ b ∧ b < 0xF0 ∧ 0x80 ≤ s1 ∧ s1 ≤ 0xBF ∧
      0x80 ≤ s2 ∧ s2 ≤ 0xBF ∧
      decodeRuneInString ((b :: t).take 4)
        = ((b % 16) * 4096 + (s1 % 64) * 64 + s2 % 64, 3)) ∨
    (∃ s1 s2 s3 t3, t = s1 :: s2 :: s3 :: t3 ∧ 0xF0 ≤ b ∧ b ≤ 0xF4 ∧ 0x80 ≤ s1 ∧ s1 ≤ 0xBF ∧
      (b = 0xF0 → 0x90 ≤ s1) ∧ 0x80 ≤ s2 ∧ s2 ≤ 0xBF ∧ 0x80 ≤ s3 ∧ s3 ≤ 0xBF ∧
      decodeRuneInString ((b :: t).take 4)
        = ((b % 8) * 262144 + (s1 % 64) * 4096 + (s2 % 64) * 64 + s3 % 64, 4)) := by
  rcases first_cases b hb with ⟨hr, h⟩ | ⟨hr, h⟩ | ⟨hr, h⟩ | ⟨hr, h⟩ | ⟨hr, h⟩ | ⟨hr, h⟩ |
    ⟨hr, h⟩ | ⟨hr, h⟩
  · left
    have e : (b :: t).take 4 = b :: t.take 3 := rfl
    rw [e]
    exact decode_invalid_leader b _ h
  · rcases decode_class_two b t hb h with h1 | ⟨s1, t1, ht, h2, h3, h4⟩
    · exact Or.inl h1
    · exact Or.inr (Or.inl ⟨s1, t1, ht, hr.1, hr.2, h2, h3, h4⟩)
  · rcases decode_class_three b 0x13 0xA0 0xBF t hb h (by norm_num) (by norm_num) rfl
      (by norm_num) (by norm_num) with h1 | ⟨s1, s2, t2, ht, _, _, h2, h3, h4, h5, h6⟩
    · exact Or.inl h1
    · exact Or.inr (Or.inr (Or.inl ⟨s1, s2, t2, ht, by omega, by omega, h2, h3, h4, h5, h6⟩))
  · rcases decode_class_three b 0x03 0x80 0xBF t hb h (by norm_num) (by norm_num) rfl
      (by norm_num) (by norm_num) with h1 | ⟨s1, s2, t2, ht, _, _, h2, h3, h4, h5, h6⟩
    · exact Or.inl h1
    · exact Or.inr (Or.inr (Or.inl ⟨s1, s2, t2, ht, by omega, by omega, h2, h3, h4, h5, h6⟩))
  · rcases decode_class_three b 0x23 0x80 0x9F t hb h (by norm_num) (by norm_num) rfl
      (by norm_num) (by norm_num) with h1 | ⟨s1, s2, t2, ht, _, _, h2, h3, h4, h5, h6⟩
    · exact Or.inl h1
    · exact Or.inr (Or.inr (Or.inl ⟨s1, s2, t2, ht, by omega, by omega, h2, h3, h4, h5, h6⟩))
  · rcases decode_class_four b 0x34 0x90 0xBF t hb h (by norm_num) (by norm_num) rfl
      (by norm_num) (by norm_num) with h1 | ⟨s1, s2, s3, t3, ht, hl, _, h2, h3, h4, h5, h6, h7, h8⟩
    · exact Or.inl h1
    · exact Or.inr (Or.inr (Or.inr ⟨s1, s2, s3, t3, ht, by omega, by omega, h2, h3,
        fun _ => hl, h4, h5, h6, h7, h8⟩))
  · rcases decode_class_four b 0x04 0x80 0xBF t hb h (by norm_num) (by norm_num) rfl
      (by norm_num) (by norm_num) with h1 | ⟨s1, s2, s3, t3, ht, hl, _, h2, h3, h4, h5, h6, h7, h8⟩
    · exact Or.inl h1
    · exact Or.inr (Or.inr (Or.inr ⟨s1, s2, s3, t3, ht, by omega, by omega, h2, h3,
        fun hh => by omega, h4, h5, h6, h7, h8⟩))
  · rcases decode_class_four b 0x44 0x80 0x8F t hb h (by norm_num) (by norm_num) rfl
      (by norm_num) (by norm_num) with h1 | ⟨s1, s2, s3, t3, ht, hl, _, h2, h3, h4, h5, h6, h7, h8⟩
    · exact Or.inl h1
    · exact Or.inr (Or.inr (Or.inr ⟨s1, s2, s3, t3, ht, by omega, by omega, h2, h3,
        fun hh => by omega, h4, h5, h6, h7, h8⟩))

theorem hexVal_hexDigit (d : Nat) (h : d < 16) : hexVal (hexDigit d) = d := by
  unfold hexVal hexDigit
  split_ifs <;> omega

theorem readStringBody_quote (t : Bytes) : readStringBody (0x22 :: t) = some ([], t) := by
  rw [readStringBody, if_pos rfl]

theorem readStringBody_plain (b : Nat) (t : Bytes) (h1 : b ≠ 0x22) (h2 : b ≠ 0x5C) :
    readStringBody (b :: t) = (readStringBody t).map (fun sr => (b :: sr.1, sr.2)) := by
  rw [readStringBody, if_neg h1, if_neg h2]

theorem readStringBody_short (e : Nat) (t : Bytes) (h : e ≠ 0x75) :
    readStringBody (0x5C :: e :: t)
      = (readStringBody t).map (fun sr => (unescapeShort e :: sr.1, sr.2)) := by
  rw [readStringBody, if_neg (by norm_num), if_pos rfl, if_neg (by simp)]
  simp only [List.getD_cons_zero, if_neg h, List.drop_succ_cons, List.drop_zero]

theorem readStringBody_hex (h1 h2 h3 h4 : Nat) (t : Bytes) :
    readStringBody (0x5C :: 0x75 :: h1 :: h2 :: h3 :: h4 :: t)
      = (readStringBody t).map (fun sr =>
          ((if h1 = 0x30 then [hexVal h3 * 16 + hexVal h4]
            else [0xE2, 0x80, 0xA0 + hexVal h4]) ++ sr.1, sr.2)) := by
  rw [readStringBody, if_neg (by norm_num), if_pos rfl, if_neg (by simp), if_pos (by simp),
    if_neg (by simp)]
  simp only [List.getD_cons_zero, List.getD_cons_succ, List.drop_succ_cons, List.drop_zero]

theorem readStringBody_copy (pre : Bytes) (h : ∀ x ∈ pre, 0x80 ≤ x) (t : Bytes) :
    readStringBody (pre ++ t) = (readStringBody t).map (fun sr => (pre ++ sr.1, sr.2)) := by
  induction pre with
  | nil => simp
  | cons x pre ih =>
    have hx : 0x80 ≤ x := h x (List.mem_cons_self _ _)
    rw [List.cons_append, readStringBody_plain x _ (by omega) (by omega),
      ih (fun y hy => h y (List.mem_cons_of_mem _ hy))]
    cases readStringBody t <;> simp


theorem appendStringLoop_ascii (b : Nat) (t : Bytes) (hb : b < 0x80) :
    appendStringLoop (b :: t)
      = (if htmlSafeSet b then [b] else escapeByte b) ++ appendStringLoop t := by
  rw [appendStringLoop, if_pos hb]

theorem appendStringLoop_invalid (b : Nat) (t : Bytes) (hb : 0x80 ≤ b)
    (hd : decodeRuneInString ((b :: t).take 4) = (RuneError, 1)) :
    appendStringLoop (b :: t) = [0x5C, 0x75, 0x66, 0x66, 0x66, 0x64] ++ appendStringLoop t := by
  rw [appendStringLoop, if_neg (by omega)]
  simp only [hd, and_self, if_true]

theorem appendStringLoop_rune (b c sz : Nat) (t : Bytes) (hb : 0x80 ≤ b)
    (hd : decodeRuneInString ((b :: t).take 4) = (c, sz)) (hne : ¬ (c = RuneError ∧ sz = 1)) :
    appendStringLoop (b :: t)
      = (if c = 0x2028 ∨ c = 0x2029 then [0x5C, 0x75, 0x32, 0x30, 0x32, hexDigit (c % 16)]
          else (b :: t).take sz) ++ appendStringLoop (t.drop (sz - 1)) := by
  rw [appendStringLoop, if_neg (by omega)]
  simp only [hd, if_neg hne]
  split_ifs <;> rfl

theorem validString_ascii (b : Nat) (t : Bytes) (hb : b < 0x80) :
    validString (b :: t) = validString t := by
  rw [validString, if_pos hb]

theorem validString_invalid (b : Nat) (t : Bytes) (hb : 0x80 ≤ b)
    (hd : decodeRuneInString ((b :: t).take 4) = (RuneError, 1)) :
    validString (b :: t) = false := by
  rw [validString, if_neg (by omega)]
  simp only [hd, and_self, if_true]

theorem validString_rune (b c sz : Nat) (t : Bytes) (hb : 0x80 ≤ b)
    (hd : decodeRuneInString ((b :: t).take 4) = (c, sz)) (hne : ¬ (c = RuneError ∧ sz = 1)) :
    validString (b :: t) = validString (t.drop (sz - 1)) := by
  rw [validString, if_neg (by omega)]
  simp only [hd, if_neg hne]

theorem readStringBody_escapeByte (b : Nat) (t : Bytes) (hb : b < 0x80)
    (hs : htmlSafeSet b = false) :
    readStringBody (escapeByte b ++ t) = (readStringBody t).map (fun sr => (b :: sr.1, sr.2)) := by
  unfold escapeByte
  split_ifs with c1 c2 c3 c4 c5 c6
  · rw [List.cons_append, List.cons_append, List.nil_append, readStringBody_short b _ (by omega)]
    have : unescapeShort b = b := by
      unfold unescapeShort
      split_ifs <;> omega
    rw [this]
  · subst c2
    rw [List.cons_append, List.cons_append, List.nil_append,
      readStringBody_short 0x62 _ (by norm_num)]
    rfl
  · subst c3
    rw [List.cons_append, List.cons_append, List.nil_append,
      readStringBody_short 0x66 _ (by norm_num)]
    rfl
  · subst c4
    rw [List.cons_append, List.cons_append, List.nil_append,
      readStringBody_short 0x6E _ (by norm_num)]
    rfl
  · subst c5
    rw [List.cons_append, List.cons_append, List.nil_append,
      readStringBody_short 0x72 _ (by norm_num)]
    rfl
  · subst c6
    rw [List.cons_append, List.cons_append, List.nil_append,
      readStringBody_short 0x74 _ (by norm_num)]
    rfl
  · simp only [List.cons_append, List.nil_append]
    rw [readStringBody_hex, if_pos rfl, hexVal_hexDigit _ (by omega), hexVal_hexDigit _ (by omega)]
    have : b / 16 * 16 + b % 16 = b := by omega
    rw [this]
    rfl

theorem read_back_ascii (b : Nat) (t r : Bytes) (hb : b < 0x80)
    (iht : readStringBody (appendStringLoop t ++ 0x22 :: r) = some (t, r)) :
    readStringBody (appendStringLoop (b :: t) ++ 0x22 :: r) = some (b :: t, r) := by
  rw [appendStringLoop_ascii b t hb, List.append_assoc]
  by_cases hs : htmlSafeSet b = true
  · rw [if_pos hs]
    have h12 : b ≠ 0x22 ∧ b ≠ 0x5C := by
      simp only [htmlSafeSet, decide_eq_true_eq] at hs
      omega
    rw [List.singleton_append, readStringBody_plain b _ h12.1 h12.2, iht]
    rfl
  · rw [if_neg hs, readStringBody_escapeByte b _ hb (by simpa using hs), iht]
    rfl

theorem read_back_two (b s1 : Nat) (t1 r : Bytes) (hb8 : 0x80 ≤ b) (h2 : b < 0xE0)
    (h3 : 0x80 ≤ s1) (h4 : s1 ≤ 0xBF)
    (hd : decodeRuneInString ((b :: s1 :: t1).take 4) = ((b % 32) * 64 + s1 % 64, 2))
    (hv : validString (b :: s1 :: t1) = true)
    (ih : validString t1 = true →
      readStringBody (appendStringLoop t1 ++ 0x22 :: r) = some (t1, r)) :
    readStringBody (appendStringLoop (b :: s1 :: t1) ++ 0x22 :: r)
      = some (b :: s1 :: t1, r) := by
  have hlt : (b % 32) * 64 + s1 % 64 < 2048 := by
    have q1 : b % 32 < 32 := Nat.mod_lt _ (by norm_num)
    have q2 : s1 % 64 < 64 := Nat.mod_lt _ (by norm_num)
    omega
  have hne : ¬ ((b % 32) * 64 + s1 % 64 = RuneError ∧ 2 = 1) := by omega
  have hsp : ¬ ((b % 32) * 64 + s1 % 64 = 0x2028 ∨ (b % 32) * 64 + s1 % 64 = 0x2029) := by
    omega
  rw [validString_rune b _ 2 _ hb8 hd hne] at hv
  rw [appendStringLoop_rune b _ 2 _ hb8 hd hne, if_neg hsp]
  simp only [Nat.add_one_sub_one, List.drop_succ_cons, List.drop_zero] at hv ⊢
  have iht := ih hv
  have e : List.take 2 (b :: s1 :: t1) = [b, s1] := rfl
  rw [e, List.append_assoc, readStringBody_copy [b, s1] (by
    intro x hx
    simp only [List.mem_cons, List.mem_singleton, List.not_mem_nil, or_false] at hx
    rcases hx with rfl | rfl <;> omega), iht]
  rfl

theorem read_back_three (b s1 s2 : Nat) (t2 r : Bytes) (h1 : 0xE0 ≤ b) (h2 : b < 0xF0)
    (h3 : 0x80 ≤ s1) (h4 : s1 ≤ 0xBF) (h5 : 0x80 ≤ s2) (h6 : s2 ≤ 0xBF)
    (hd : decodeRuneInString ((b :: s1 :: s2 :: t2).take 4)
      = ((b % 16) * 4096 + (s1 % 64) * 64 + s2 % 64, 3))
    (hv : validString (b :: s1 :: s2 :: t2) = true)
    (ih : validString t2 = true →
      readStringBody (appendStringLoop t2 ++ 0x22 :: r) = some (t2, r)) :
    readStringBody (appendStringLoop (b :: s1 :: s2 :: t2) ++ 0x22 :: r)
      = some (b :: s1 :: s2 :: t2, r) := by
  have hb8 : 0x80 ≤ b := by omega
  have hne : ¬ ((b % 16) * 4096 + (s1 % 64) * 64 + s2 % 64 = RuneError ∧ 3 = 1) := by omega
  rw [validString_rune b _ 3 _ hb8 hd hne] at hv
  rw [appendStringLoop_rune b _ 3 _ hb8 hd hne]
  simp only [Nat.add_one_sub_one, List.drop_succ_cons, List.drop_zero] at hv ⊢
  have iht := ih hv
  by_cases hsp : (b % 16) * 4096 + (s1 % 64) * 64 + s2 % 64 = 0x2028 ∨
      (b % 16) * 4096 + (s1 % 64) * 64 + s2 % 64 = 0x2029
  · rw [if_pos hsp]
    simp only [List.cons_append, List.nil_append]
    rw [readStringBody_hex, if_neg (by norm_num), iht,
      hexVal_hexDigit _ (Nat.mod_lt _ (by norm_num))]
    have e1 : b = 0xE2 := by omega
    have e2 : s1 = 0x80 := by omega
    have e3 : 0xA0 + ((b % 16) * 4096 + (s1 % 64) * 64 + s2 % 64) % 16 = s2 := by omega
    simp only [Option.map_some', List.cons_append, List.nil_append, e3]
    rw [e1, e2]
  · rw [if_neg hsp]
    have e : List.take 3 (b :: s1 :: s2 :: t2) = [b, s1, s2] := rfl
    rw [e, List.append_assoc, readStringBody_copy [b, s1, s2] (by
      intro x hx
      simp only [List.mem_cons, List.mem_singleton, List.not_mem_nil, or_false] at hx
      rcases hx with rfl | rfl | rfl <;> omega), iht]
    rfl

theorem read_back_four (b s1 s2 s3 : Nat) (t3 r : Bytes) (h1 : 0xF0 ≤ b) (h2 : b ≤ 0xF4)
    (h3 : 0x80 ≤ s1) (h4 : s1 ≤ 0xBF) (h5 : b = 0xF0 → 0x90 ≤ s1) (h6 : 0x80 ≤ s2)
    (h8 : 0x80 ≤ s3)
    (hd : decodeRuneInString ((b :: s1 :: s2 :: s3 :: t3).take 4)
      = ((b % 8) * 262144 + (s1 % 64) * 4096 + (s2 % 64) * 64 + s3 % 64, 4))
    (hv : validString (b :: s1 :: s2 :: s3 :: t3) = true)
    (ih : validString t3 = true →
      readStringBody (appendStringLoop t3 ++ 0x22 :: r) = some (t3, r)) :
    readStringBody (appendStringLoop (b :: s1 :: s2 :: s3 :: t3) ++ 0x22 :: r)
      = some (b :: s1 :: s2 :: s3 :: t3, r) := by
  have hb8 : 0x80 ≤ b := by omega
  have hne : ¬ ((b % 8) * 262144 + (s1 % 64) * 4096 + (s2 % 64) * 64 + s3 % 64 = RuneError
      ∧ 4 = 1) := by omega
  have hsp : ¬ ((b % 8) * 262144 + (s1 % 64) * 4096 + (s2 % 64) * 64 + s3 % 64 = 0x2028 ∨
      (b % 8) * 262144 + (s1 % 64) * 4096 + (s2 % 64) * 64 + s3 % 64 = 0x2029) := by
    have q2 : s2 % 64 < 64 := Nat.mod_lt _ (by norm_num)
    have q3 : s3 % 64 < 64 := Nat.mod_lt _ (by norm_num)
    by_cases hb0 : b % 8 = 0
    · have hs1 : 16 ≤ s1 % 64 := by
        have : 0x90 ≤ s1 ∨ 0xF1 ≤ b := by
          by_cases hbe : b = 0xF0
          · exact Or.inl (h5 hbe)
          · exact Or.inr (by omega)
        omega
      omega
    · have : 1 ≤ b % 8 := by omega
      omega
  rw [validString_rune b _ 4 _ hb8 hd hne] at hv
  rw [appendStringLoop_rune b _ 4 _ hb8 hd hne, if_neg hsp]
  simp only [Nat.add_one_sub_one, List.drop_succ_cons, List.drop_zero] at hv ⊢
  have iht := ih hv
  have e : List.take 4 (b :: s1 :: s2 :: s3 :: t3) = [b, s1, s2, s3] := rfl
  rw [e, List.append_assoc, readStringBody_copy [b, s1, s2, s3] (by
    intro x hx
    simp only [List.mem_cons, List.mem_singleton, List.not_mem_nil, or_false] at hx
    rcases hx with rfl | rfl | rfl | rfl <;> omega), iht]
  rfl

/-- Reading back what `appendStringLoop` wrote for a valid UTF-8 string, up to the
closing quote, gives the string and leaves what follows the quote. -/
theorem readStringBody_appendStringLoop (n : Nat) :
    ∀ s : Bytes, s.length = n → validString s = true → ∀ r : Bytes,
      readStringBody (appendStringLoop s ++ 0x22 :: r) = some (s, r) := by
  induction n using Nat.strong_induction_on with
  | _ n ih =>
    intro s hn hv r
    cases s with
    | nil =>
      rw [appendStringLoop]
      exact readStringBody_quote r
    | cons b t =>
      simp only [List.length_cons] at hn
      by_cases hb : b < 0x80
      · rw [validString_ascii b t hb] at hv
        exact read_back_ascii b t r hb (ih t.length (by omega) t rfl hv r)
      · have hb8 : 0x80 ≤ b := by omega
        rcases decode_cases b t hb8 with he | ⟨s1, t1, rfl, h1, h2, h3, h4, hd⟩ |
          ⟨s1, s2, t2, rfl, h1, h2, h3, h4, h5, h6, hd⟩ |
          ⟨s1, s2, s3, t3, rfl, h1, h2, h3, h4, h5, h6, h7, h8, h9, hd⟩
        · rw [validString_invalid b t hb8 he] at hv
          exact absurd hv (by simp)
        · exact read_back_two b s1 t1 r hb8 h2 h3 h4 hd hv
            (fun hv1 => ih t1.length (by simp only [List.length_cons] at hn; omega) t1 rfl hv1 r)
        · exact read_back_three b s1 s2 t2 r h1 h2 h3 h4 h5 h6 hd hv
            (fun hv1 => ih t2.length (by simp only [List.length_cons] at hn; omega) t2 rfl hv1 r)
        · exact read_back_four b s1 s2 s3 t3 r h1 h2 h3 h4 h5 h6 h8 hd hv
            (fun hv1 => ih t3.length (by simp only [List.length_cons] at hn; omega) t3 rfl hv1 r)

theorem jsonString_cancel (a b r1 r2 : Bytes) (ha : validString a = true)
    (hb : validString b = true) (h : jsonString a ++ r1 = jsonString b ++ r2) :
    a = b ∧ r1 = r2 := by
  unfold jsonString at h
  simp only [List.cons_append, List.append_assoc, List.singleton_append, List.cons.injEq,
    true_and, List.nil_append] at h
  have h1 := readStringBody_appendStringLoop a.length a rfl ha r1
  have h2 := readStringBody_appendStringLoop b.length b rfl hb r2
  rw [h, h2] at h1
  simp only [Option.some.injEq, Prod.mk.injEq] at h1
  exact ⟨h1.1.symm, h1.2.symm⟩

theorem decValue_reverse_digits (ds : List Nat) :
    decValue ((ds.reverse).map (fun d => d + 48)) = Nat.ofDigits 10 ds := by
  induction ds with
  | nil => simp [decValue]
  | cons d ds ih =>
    unfold decValue at ih ⊢
    simp only [List.reverse_cons, List.map_append, List.map_cons, List.map_nil,
      List.foldl_append, List.foldl_cons, List.foldl_nil, Nat.add_sub_cancel, ih,
      Nat.ofDigits_cons]
    omega

theorem decValue_formatBits (u : Nat) : decValue (formatBits u) = u := by
  unfold formatBits
  split_ifs with h
  · subst h
    simp [decValue]
  · rw [decValue_reverse_digits, Nat.ofDigits_digits]

theorem formatBits_digits (u : Nat) : ∀ c ∈ formatBits u, isDecDigit c := by
  unfold formatBits isDecDigit
  split_ifs with h
  · intro c hc
    simp only [List.mem_singleton] at hc
    omega
  · intro c hc
    simp only [List.mem_map, List.mem_reverse] at hc
    obtain ⟨d, hd, rfl⟩ := hc
    have := Nat.digits_lt_base (by norm_num : 1 < 10) hd
    omega

theorem formatBits_ne_nil (u : Nat) : formatBits u ≠ [] := by
  intro h
  have h1 := decValue_formatBits u
  unfold formatBits at h
  split_ifs at h with h0
  simp only [List.map_eq_nil_iff, List.reverse_eq_nil_iff] at h
  exact h0 (Nat.digits_eq_nil_iff_eq_zero.1 h)

theorem appendInt_chars (i : Int) : ∀ c ∈ appendInt i, c = 45 ∨ isDecDigit c := by
  unfold appendInt
  split_ifs
  · intro c hc
    rcases List.mem_cons.1 hc with rfl | hc
    · exact Or.inl rfl
    · exact Or.inr (formatBits_digits _ c hc)
  · intro c hc
    exact Or.inr (formatBits_digits _ c hc)

theorem appendInt_injective (i j : Int) (h : appendInt i = appendInt j) : i = j := by
  have hd : ∀ u : Nat, ∀ x, formatBits u ≠ 45 :: x := by
    intro u x hx
    have := formatBits_digits u 45 (by rw [hx]; exact List.mem_cons_self _ _)
    unfold isDecDigit at this
    omega
  unfold appendInt at h
  split_ifs at h with hi hj hj
  · have := congrArg decValue (List.cons.inj h).2
    rw [decValue_formatBits, decValue_formatBits] at this
    omega
  · exact absurd h.symm (hd _ _)
  · exact absurd h (hd _ _)
  · have := congrArg decValue h
    rw [decValue_formatBits, decValue_formatBits] at this
    omega

theorem run_cancel (P : Nat → Prop) (sep : Nat) (hsep : ¬ P sep) :
    ∀ (x y r1 r2 : Bytes), (∀ c ∈ x, P c) → (∀ c ∈ y, P c) →
      x ++ sep :: r1 = y ++ sep :: r2 → x = y ∧ r1 = r2 := by
  intro x
  induction x with
  | nil =>
    intro y r1 r2 _ hy h
    cases y with
    | nil => simpa using h
    | cons c y =>
      simp only [List.nil_append, List.cons_append, List.cons.injEq] at h
      exact absurd (h.1 ▸ hy c (List.mem_cons_self _ _)) hsep
  | cons a x ih =>
    intro y r1 r2 hx hy h
    cases y with
    | nil =>
      simp only [List.nil_append, List.cons_append, List.cons.injEq] at h
      exact absurd (h.1 ▸ hx a (List.mem_cons_self _ _)) hsep
    | cons c y =>
      simp only [List.cons_append, List.cons.injEq] at h
      obtain ⟨e1, e2⟩ := ih y r1 r2 (fun z hz => hx z (List.mem_cons_of_mem _ hz))
        (fun z hz => hy z (List.mem_cons_of_mem _ hz)) h.2
      exact ⟨by rw [h.1, e1], e2⟩

/-- On records whose strings are valid UTF-8, `json.Marshal` is injective. -/
theorem jsonMarshal_injective (p q : GPUProof) (hp : p.validUTF8) (hq : q.validUTF8)
    (h : jsonMarshal p = jsonMarshal q) : p = q := by
  obtain ⟨g1, t1, r1, ts1, u1, l1⟩ := p
  obtain ⟨g2, t2, r2, ts2, u2, l2⟩ := q
  obtain ⟨hp1, hp2, hp3, hp4, hp5⟩ := hp
  obtain ⟨hq1, hq2, hq3, hq4, hq5⟩ := hq
  simp only at hp1 hp2 hp3 hp4 hp5 hq1 hq2 hq3 hq4 hq5
  unfold jsonMarshal at h
  simp only [Except.ok.injEq, List.append_assoc] at h
  have k1 := List.append_cancel_left h
  obtain ⟨rfl, k2⟩ := jsonString_cancel _ _ _ _ hp1 hq1 k1
  have k3 := List.append_cancel_left k2
  obtain ⟨rfl, k4⟩ := jsonString_cancel _ _ _ _ hp2 hq2 k3
  have k5 := List.append_cancel_left k4
  obtain ⟨rfl, k6⟩ := jsonString_cancel _ _ _ _ hp3 hq3 k5
  have k7 := List.append_cancel_left k6
  have hc : ascii ",\"user\":" = 44 :: ascii "\"user\":" := by decide
  rw [hc] at k7
  simp only [List.cons_append] at k7
  obtain ⟨e, k8⟩ := run_cancel (fun c => c = 45 ∨ isDecDigit c) 44
    (by unfold isDecDigit; omega) _ _ _ _ (appendInt_chars ts1) (appendInt_chars ts2) k7
  have ets := appendInt_injective _ _ e
  subst ets
  have k9 := List.append_cancel_left k8
  obtain ⟨rfl, k10⟩ := jsonString_cancel _ _ _ _ hp4 hq4 k9
  have k11 := List.append_cancel_left k10
  obtain ⟨rfl, _⟩ := jsonString_cancel _ _ _ _ hp5 hq5 k11
  rfl

theorem validString_of_ascii (s : Bytes) (h : ∀ b ∈ s, b < 0x80) : validString s = true := by
  induction s with
  | nil => rw [validString]
  | cons b t ih =>
    rw [validString_ascii b t (h b (List.mem_cons_self _ _))]
    exact ih (fun x hx => h x (List.mem_cons_of_mem _ hx))

/-- C7, counterexample: two proof records that differ in exactly one field, the
GPU identifier being the single byte `0xFF` in one and `0xFE` in the other, have
the same JSON serialization (each invalid byte is written as the escape for
U+FFFD), hence the same content hash under any hash function. -/
theorem invalid_utf8_records_serialize_alike :
    differInExactlyOneField { mockProof (ascii "1") with GPUId := [0xFF] }
        { mockProof (ascii "1") with GPUId := [0xFE] } ∧
      jsonMarshal { mockProof (ascii "1") with GPUId := [0xFF] }
        = jsonMarshal { mockProof (ascii "1") with GPUId := [0xFE] } := by
  refine ⟨by decide, ?_⟩
  have e : jsonString [0xFF] = jsonString [0xFE] := by
    simp [jsonString, appendStringLoop, decodeRuneInString, first, RuneError]
  simp only [jsonMarshal, e]

/-- C7 (as the code behaves): two proof records whose string fields are valid
UTF-8 and which differ in exactly one field have different JSON serializations,
so under any injective hash function their content hashes differ. -/
theorem valid_utf8_records_serialize_differently (p q : GPUProof) (hp : p.validUTF8)
    (hq : q.validUTF8) (hd : differInExactlyOneField p q) :
    jsonMarshal p ≠ jsonMarshal q ∧
      ∀ (H : Type) (hash : Bytes → H), Function.Injective hash →
        ∀ jp jq, jsonMarshal p = .ok jp → jsonMarshal q = .ok jq → hash jp ≠ hash jq := by
  have hne : p ≠ q := by
    rintro rfl
    simp [differInExactlyOneField] at hd
  have hj : jsonMarshal p ≠ jsonMarshal q := fun h => hne (jsonMarshal_injective p q hp hq h)
  refine ⟨hj, ?_⟩
  intro H hash hinj jp jq h1 h2 h3
  apply hj
  rw [h1, h2, hinj h3]

/-- C7 at a concrete input: the mock proof and a copy whose target label is
"stkATOM". -/
theorem valid_utf8_records_serialize_differently_witness :
    differInExactlyOneField (mockProof (ascii "1000000000000000000"))
        { mockProof (ascii "1000000000000000000") with TargetLST := ascii "stkATOM" } ∧
      jsonMarshal (mockProof (ascii "1000000000000000000"))
        ≠ jsonMarshal { mockProof (ascii "1000000000000000000")
            with TargetLST := ascii "stkATOM" } :=
  ⟨by decide,
    (valid_utf8_records_serialize_differently (mockProof (ascii "1000000000000000000"))
      { mockProof (ascii "1000000000000000000") with TargetLST := ascii "stkATOM" }
      ⟨validString_of_ascii _ (by decide), validString_of_ascii _ (by decide),
        validString_of_ascii _ (by decide), validString_of_ascii _ (by decide),
        validString_of_ascii _ (by decide)⟩
      ⟨validString_of_ascii _ (by decide), validString_of_ascii _ (by decide),
        validString_of_ascii _ (by decide), validString_of_ascii _ (by decide),
        validString_of_ascii _ (by decide)⟩
      (by decide)).1⟩

end XFuel
